import Mathlib

/-!
Verification of the protocells agent runtime core.

Shallow embedding of the TypeScript sources:
  * `src/src/memory.ts`    — context size estimation, pruning, tool-pair repair
  * `src/src/queue.ts`     — the in-memory message queue
  * `src/src/state.ts`     — agent.json load/save and the round counter update
  * `src/src/tool-exec.ts` — tool dispatch and reply delivery
  * the executor loop and the bash tool (unnamed source files)

JavaScript conventions are modelled explicitly:
  * `string | null` / optional fields become `Option String`; JS truthiness of
    a string (empty string is falsy) is modelled by additionally testing `≠ ""`.
  * `unknown` tool-call arguments only ever enter via `JSON.stringify(...).length`,
    so they are carried as their serialized `String` form.
  * machine numbers are `Nat` (sizes, thresholds) or `Int` (exit codes); none of
    the modelled arithmetic can overflow a JS double.
  * `crypto.randomUUID()` is modelled by threading an id supply (a counter or an
    explicit fresh-id argument).
-/

namespace Protocells

/-! ## Data model (src/src/types.ts) -/

inductive Role where
  | system
  | user
  | assistant
  | tool
deriving DecidableEq, Repr

/-- `ToolCall` from types.ts; `args : unknown` is carried in serialized form,
so `JSON.stringify(tc.args)` is `tc.args` itself. -/
structure ToolCall where
  id : String
  name : String
  args : String
deriving DecidableEq, Repr

/-- `Message` from types.ts: `content : string | null`,
optional `toolCalls`, optional `toolCallId`. -/
structure Message where
  role : Role
  content : Option String
  toolCalls : Option (List ToolCall)
  toolCallId : Option String
deriving DecidableEq, Repr

instance : Inhabited Message := ⟨⟨Role.system, none, none, none⟩⟩

/-! ## memory.ts — size estimation -/

/-- Threshold constants from memory.ts. -/
def PRUNE_SOFT_CHARS : Nat := 80000
def PRUNE_HARD_CHARS : Nat := 120000
def COMPACT_CHARS : Nat := 160000
def KEEP_LAST_ASSISTANTS : Nat := 3
def SOFT_TRIM_HEAD : Nat := 1500
def SOFT_TRIM_TAIL : Nat := 1500
def SOFT_TRIM_THRESHOLD : Nat := 4000
def CLEARED_PLACEHOLDER : String := "[Tool result cleared to save context space]"

/-- `estimateMessageChars` (memory.ts:46): `content?.length ?? 0` plus, for each
tool call, `JSON.stringify(tc.args).length + (tc.name?.length ?? 0) + (tc.id?.length ?? 0)`.
The `try/catch` around `JSON.stringify` cannot fire in the model (args are
already strings). The JS `for..of` accumulation is a left fold. -/
def estimateMessageChars (m : Message) : Nat :=
  (match m.content with
   | some c => c.length
   | none => 0) +
  (match m.toolCalls with
   | some tcs => tcs.foldl (fun acc tc => acc + tc.args.length + tc.name.length + tc.id.length) 0
   | none => 0)

/-- `estimateContextChars` (memory.ts:61). -/
def estimateContextChars (messages : List Message) : Nat :=
  messages.foldl (fun sum m => sum + estimateMessageChars m) 0

/-! ## memory.ts — pruning -/

/-- Backwards loop of `findPruneCutoff` (memory.ts:76): the fuel argument is
`i + 1` where `i` is the JS loop index; `count` assistants seen so far. -/
def findCutoffGo (messages : List Message) (keepLast : Nat) : Nat → Nat → Nat
  | 0, _ => 0
  | i + 1, count =>
    if (messages.getD i default).role = Role.assistant then
      if keepLast ≤ count + 1 then i
      else findCutoffGo messages keepLast i (count + 1)
    else findCutoffGo messages keepLast i count

/-- `findPruneCutoff` (memory.ts:76): index of the `keepLast`-th-from-last
assistant message, `0` when there are not that many. -/
def findPruneCutoff (messages : List Message) (keepLast : Nat) : Nat :=
  findCutoffGo messages keepLast messages.length 0

/-- `softTrimContent` (memory.ts:87).  The banner is the template literal of
memory.ts:91 with the compile-time constants `SOFT_TRIM_HEAD = SOFT_TRIM_TAIL
= 1500` already interpolated. -/
def softTrimContent (content : String) : String :=
  if content.length ≤ SOFT_TRIM_THRESHOLD then content
  else
    content.take SOFT_TRIM_HEAD
      ++ "\n...\n[Trimmed: kept first 1500 + last 1500 of "
      ++ toString content.length ++ " chars]\n...\n"
      ++ content.takeRight SOFT_TRIM_TAIL

/-- Body of the pruning loop (memory.ts:105-123) for one message at an index
below the cutoff.  `msg.role !== 'tool' || !msg.content` skips the message
(JS: `""` is falsy).  When `needsHardClear`, contents longer than 100 chars
become the placeholder; otherwise the soft trim is applied (writing the
message back unchanged when the trim is the identity, which is the same list
element either way). -/
def pruneOne (needsHardClear : Bool) (m : Message) : Message :=
  if m.role = Role.tool then
    match m.content with
    | some c =>
      if c = "" then m
      else if needsHardClear then
        if 100 < c.length then { m with content := some CLEARED_PLACEHOLDER } else m
      else
        { m with content := some (softTrimContent c) }
    | none => m
  else m

/-- The indexed `for (let i = 0; i < cutoff; i++)` rewrite of memory.ts:105:
entries at index `< cutoff` are passed through `pruneOne`, the rest are kept. -/
def pruneList (needsHardClear : Bool) (cutoff : Nat) : Nat → List Message → List Message
  | _, [] => []
  | i, m :: rest =>
    (if i < cutoff then pruneOne needsHardClear m else m) :: pruneList needsHardClear cutoff (i + 1) rest

/-- `pruneContext` (memory.ts:94).  The source returns the original array when
nothing changed (`pruned ? result : messages`); element-wise the two lists are
equal in that case, so the model returns the rewritten list directly. -/
def pruneContext (messages : List Message) : List Message :=
  let totalChars := estimateContextChars messages
  if totalChars < PRUNE_SOFT_CHARS then messages
  else
    let cutoff := findPruneCutoff messages KEEP_LAST_ASSISTANTS
    if cutoff = 0 then messages
    else
      let needsHardClear : Bool := decide (PRUNE_HARD_CHARS ≤ totalChars)
      pruneList needsHardClear cutoff 0 messages

/-- `shouldCompress` (memory.ts:198). -/
def shouldCompress (messages : List Message) : Bool :=
  decide (COMPACT_CHARS ≤ estimateContextChars messages)

/-! ## memory.ts — tool-pair repair -/

/-- The guard `msg.role === 'tool' && msg.toolCallId` of memory.ts:156:
returns the id when the message is a tool message with a truthy (non-empty)
`toolCallId`, and `none` otherwise. -/
def truthyToolId (m : Message) : Option String :=
  match m.role, m.toolCallId with
  | Role.tool, some s => if s = "" then none else some s
  | _, _ => none

/-- The guard `msg.role === 'assistant' && msg.toolCalls` of memory.ts:144/174
(a present array is truthy even when empty). -/
def assistantToolCalls (m : Message) : Option (List ToolCall) :=
  match m.role, m.toolCalls with
  | Role.assistant, some tcs => some tcs
  | _, _ => none

/-- Ids contributed by one message to the `toolCallIds` set (memory.ts:143-149). -/
def msgCallIds (m : Message) : List String :=
  match assistantToolCalls m with
  | some tcs => tcs.map (fun tc => tc.id)
  | none => []

/-- All assistant tool-call ids, in order (the `toolCallIds` set of
memory.ts:141-149, modelled as a list with membership as `has`). -/
def assistantCallIds : List Message → List String
  | [] => []
  | m :: rest => msgCallIds m ++ assistantCallIds rest

/-- First pass of `repairToolPairing` (memory.ts:151-168): drop orphaned tool
results and duplicates; `seen` is the `toolResultIds` set, returned so the
second pass can continue extending it. -/
def dropPass (callIds : List String) : List Message → List String → List Message × List String
  | [], seen => ([], seen)
  | m :: rest, seen =>
    match truthyToolId m with
    | some tid =>
      if tid ∈ callIds then
        if tid ∈ seen then dropPass callIds rest seen
        else
          let p := dropPass callIds rest (tid :: seen)
          (m :: p.1, p.2)
      else dropPass callIds rest seen
    | none =>
      let p := dropPass callIds rest seen
      (m :: p.1, p.2)

/-- The synthetic tool message of memory.ts:177-181. -/
def syntheticResult (tid : String) : Message :=
  { role := Role.tool
    content := some "[Result cleared during context compaction]"
    toolCalls := none
    toolCallId := some tid }

/-- Inner loop of the second pass (memory.ts:175-184): for each tool call of
one assistant message, insert a synthetic result unless its id is already in
`toolResultIds`, extending the set as it goes. -/
def synthFor : List ToolCall → List String → List Message × List String
  | [], seen => ([], seen)
  | tc :: rest, seen =>
    if tc.id ∈ seen then synthFor rest seen
    else
      let p := synthFor rest (tc.id :: seen)
      (syntheticResult tc.id :: p.1, p.2)

/-- Second pass of `repairToolPairing` (memory.ts:171-186): re-emit every
message, appending synthetic results after assistant messages. -/
def synthPass : List Message → List String → List Message × List String
  | [], seen => ([], seen)
  | m :: rest, seen =>
    match assistantToolCalls m with
    | some tcs =>
      let q := synthFor tcs seen
      let r := synthPass rest q.2
      (m :: q.1 ++ r.1, r.2)
    | none =>
      let r := synthPass rest seen
      (m :: r.1, r.2)

/-- `repairToolPairing` (memory.ts:140-189). -/
def repairToolPairing (messages : List Message) : List Message :=
  let callIds := assistantCallIds messages
  let p := dropPass callIds messages []
  (synthPass p.1 p.2).1

/-! ## queue.ts — MessageQueue -/

/-- `QueueMessage` from types.ts.  `metadata` is opaque and irrelevant to the
queue logic, so it is omitted; `id : string` from `crypto.randomUUID()` is
modelled as a counter value (see `QueueState.nextId`). -/
structure QueueMessage where
  id : Nat
  content : String
  source : String
  timestamp : Nat
deriving DecidableEq, Repr

/-- The private fields of `MessageQueue` (queue.ts:4-6): the pending list and
whether a waiter promise is registered.  `nextId` is the fresh-id supply
standing in for `crypto.randomUUID()`. -/
structure QueueState where
  messages : List QueueMessage
  waiter : Bool
  nextId : Nat
deriving DecidableEq, Repr

/-- `push` (queue.ts:8-26): append the new message, wake and clear the waiter
if one is registered.  Returns the new message, the new state, and whether a
waiter was woken. -/
def MessageQueue.push (s : QueueState) (content source : String) (now : Nat) :
    QueueMessage × QueueState × Bool :=
  let msg : QueueMessage := { id := s.nextId, content := content, source := source, timestamp := now }
  let woke := s.waiter
  (msg, { messages := s.messages ++ [msg], waiter := false, nextId := s.nextId + 1 }, woke)

/-- `drain` (queue.ts:28-31): `splice(0)` removes and returns every pending
message in order. -/
def MessageQueue.drain (s : QueueState) : List QueueMessage × QueueState :=
  (s.messages, { s with messages := [] })

/-- `pending` getter (queue.ts:33-35). -/
def MessageQueue.pending (s : QueueState) : Nat :=
  s.messages.length

/-- `waitForMessage` (queue.ts:37-44): resolves immediately when non-empty
(`true`), otherwise registers the waiter and blocks (`false`). -/
def MessageQueue.waitForMessage (s : QueueState) : Bool × QueueState :=
  if s.messages.length > 0 then (true, s)
  else (false, { s with waiter := true })

/-! ## state.ts / executor — agent state and the round counter -/

/-- `AgentState` from types.ts (the `role` tag is irrelevant to the round
bookkeeping but kept for field-preservation statements). -/
structure AgentState where
  provider : String
  model : Option String
  round : Nat
  maxRounds : Option Nat
  systemPrompt : String
  role : Option String
deriving DecidableEq, Repr

/-- End-of-round state write (executor lines 302-305): re-read `agent.json`
into `freshState`, set `freshState.round = state.round + 1` where `state` was
read at the start of the round, and `saveState` the result. -/
def saveRoundState (startState freshState : AgentState) : AgentState :=
  { freshState with round := startState.round + 1 }

/-- The sequence of `agent.json` contents observed at the end of each round,
assuming the executor is the only writer of the `round` field between rounds:
round `n` starts by reading `statesTrace init fresh n` and ends by writing
`saveRoundState` of it and of the fresh re-read `fresh n` (which carries any
self-edits the agent made during the round). -/
def statesTrace (init : AgentState) (fresh : Nat → AgentState) : Nat → AgentState
  | 0 => init
  | n + 1 => saveRoundState (statesTrace init fresh n) (fresh n)

/-! ## tool-exec.ts — reply routing and tool dispatch -/

/-- `DeliveryResult` (tool-exec.ts:94-97). -/
inductive DeliveryResult where
  | route (url : String)
  | outbox
deriving DecidableEq, Repr

/-- The routing-key extraction of `deliverReply` (tool-exec.ts:102-103):
`colonIdx = source.indexOf(":"); prefix = colonIdx > 0 ? source.slice(0, colonIdx) : source`.
Note the whole string is used both when there is no colon and when the colon
is the first character. -/
def routeKey (source : String) : String :=
  match source.data.findIdx? (fun c => c = ':') with
  | some n => if 0 < n then source.take n else source
  | none => source

/-- The routing key as the claim and spec word it: the prefix of `source` up
to the first `:`, or the whole string only when there is no colon at all.
Stated for comparison with `routeKey` (the code). -/
def specRouteKey (source : String) : String :=
  match source.data.findIdx? (fun c => c = ':') with
  | some n => source.take n
  | none => source

/-- `routes.json` content: association list from key to the `url` field of the
entry (a missing or empty `url` is falsy in `route?.url`). -/
def lookupRoute (routes : List (String × String)) (key : String) : Option String :=
  match routes.find? (fun r => r.1 = key) with
  | some r => some r.2
  | none => none

/-- `OutboxMessage` from types.ts (metadata omitted as opaque). -/
structure OutboxMessage where
  id : String
  source : String
  content : String
  timestamp : Nat
deriving DecidableEq, Repr

/-- `writeOutbox` (server, lines 245-260): build an `OutboxMessage` with a
fresh id (`crypto.randomUUID()`, passed in as `newId`) and write it to
`outbox/<id>.json`; returns the message and the path written. -/
def writeOutbox (newId source content : String) (now : Nat) : OutboxMessage × String :=
  let outMsg : OutboxMessage := { id := newId, source := source, content := content, timestamp := now }
  (outMsg, "outbox/" ++ outMsg.id ++ ".json")

/-- Outcome of `fetch(route.url, {method: POST, body: {source, content}})`:
the HTTP status and response text the network returned for that POST. -/
structure PostOutcome where
  status : Nat
  text : String
deriving DecidableEq, Repr

/-- Effect of one `deliverReply` call: either a POST happened to a url, or an
outbox file was written. -/
inductive DeliveryEffect where
  | posted (url : String) (bodySource bodyContent : String)
  | wroteOutbox (msg : OutboxMessage) (path : String)
deriving DecidableEq, Repr

/-- `deliverReply` (tool-exec.ts:99-121).  `post` gives the network response
for the POST to the route url; `res.ok` is status 200-299; a non-ok response
throws (`Except.error`) with the message of tool-exec.ts:113.  `newId`/`now`
feed `writeOutbox` in the fallback case. -/
def deliverReply (routes : List (String × String)) (post : String → PostOutcome)
    (newId : String) (now : Nat) (source content : String) :
    Except String (DeliveryResult × DeliveryEffect) :=
  let key := routeKey source
  match lookupRoute routes key with
  | some url =>
    if url = "" then
      let w := writeOutbox newId source content now
      Except.ok (DeliveryResult.outbox, DeliveryEffect.wroteOutbox w.1 w.2)
    else
      let res := post url
      if 200 ≤ res.status ∧ res.status < 300 then
        Except.ok (DeliveryResult.route url, DeliveryEffect.posted url source content)
      else
        Except.error ("Route POST to " ++ url ++ " failed: " ++ toString res.status ++ " " ++ res.text)
  | none =>
    let w := writeOutbox newId source content now
    Except.ok (DeliveryResult.outbox, DeliveryEffect.wroteOutbox w.1 w.2)

/-- A tool message carrying `content` for call id `callId`. -/
def toolMsg (callId content : String) : Message :=
  { role := Role.tool, content := some content, toolCalls := none, toolCallId := some callId }

/-- `ToolCallResult` (tool-exec.ts:18-21). -/
structure ToolCallResult where
  messages : List Message
  shouldWait : Bool
deriving DecidableEq, Repr

/-- Possible outcomes of awaiting `withTimeout(tool.execute(args), 30000, name)`
(tool-exec.ts:8-16,63-73): the promise resolved with `{result, action?}`,
rejected with an error message, or the 30000 ms timer fired first (rejecting
with the timeout error built in tool-exec.ts:10). -/
inductive ExecOutcome where
  | success (result : String) (wait : Bool)
  | thrown (errMsg : String)
  | timedOut
deriving DecidableEq, Repr

/-- `TOOL_TIMEOUT_MS` (tool-exec.ts:6). -/
def TOOL_TIMEOUT_MS : Nat := 30000

/-- The rejection message built by `withTimeout` when the timer fires
(tool-exec.ts:10). -/
def timeoutErrMsg (toolName : String) : String :=
  "Tool \"" ++ toolName ++ "\" timed out after " ++ toString TOOL_TIMEOUT_MS ++ "ms"

/-- The `reply` branch of `executeToolCall` (tool-exec.ts:35-51), given the
settled outcome of `deliverReply`. -/
def replyToolResult (callId replySource : String)
    (delivery : Except String (DeliveryResult × DeliveryEffect)) : ToolCallResult :=
  match delivery with
  | Except.ok (DeliveryResult.route url, _) =>
    { messages := [toolMsg callId ("Reply delivered to " ++ replySource ++ " via " ++ url)]
      shouldWait := false }
  | Except.ok (DeliveryResult.outbox, _) =>
    { messages := [toolMsg callId ("Reply written to outbox for " ++ replySource ++ " (no route matched)")]
      shouldWait := false }
  | Except.error errMsg =>
    { messages := [toolMsg callId ("ERROR delivering reply: " ++ errMsg)]
      shouldWait := false }

/-- `executeToolCall` (tool-exec.ts:23-74).  `userToolNames` are the names of
the loaded user tools; `userOutcome` is the settled outcome of running the
matched user tool under `withTimeout`; `replyDelivery` is the settled outcome
of `deliverReply` for the `reply` builtin.  The function is total: every
failure is returned as a tool message, never raised. -/
def executeToolCall (callName callId : String) (userToolNames : List String)
    (userOutcome : ExecOutcome) (replySource : String)
    (replyDelivery : Except String (DeliveryResult × DeliveryEffect)) : ToolCallResult :=
  if callName = "think" then
    { messages := [toolMsg callId "OK"], shouldWait := false }
  else if callName = "reply" then
    replyToolResult callId replySource replyDelivery
  else if callName = "wait_for" then
    { messages := [toolMsg callId "Entering wait state. Will resume when new messages arrive."]
      shouldWait := true }
  else if callName ∈ userToolNames then
    match userOutcome with
    | ExecOutcome.success r w => { messages := [toolMsg callId r], shouldWait := w }
    | ExecOutcome.thrown errMsg =>
      { messages := [toolMsg callId ("ERROR: " ++ errMsg)], shouldWait := false }
    | ExecOutcome.timedOut =>
      { messages := [toolMsg callId ("ERROR: " ++ timeoutErrMsg callName)], shouldWait := false }
  else
    { messages := [toolMsg callId ("ERROR: unknown tool \"" ++ callName ++ "\"")], shouldWait := false }

/-! ## Executor loop — end-of-round control flow (executor lines 290-330) -/

/-- The nudge user message of executor line 312-315. -/
def nudgeMessage : Message :=
  { role := Role.user
    content := some "[system] You did not call any tools. You MUST use tools for everything: think() to reason, reply() to send messages to users, wait_for() to sleep. Plain text output is discarded. Try again."
    toolCalls := none
    toolCallId := none }

/-- Observable outcome of the tail of one round. -/
structure RoundOutcome where
  /-- What `saveContext` persisted to `memory/context.json` this round
  (executor line 291). -/
  savedContext : List Message
  /-- The in-memory `currentContext` array when the iteration ends. -/
  memContext : List Message
  /-- The context the next iteration starts from: `loadContext` re-reads the
  persisted file (executor line 179). -/
  nextLoadedContext : List Message
  /-- `noToolRetries` after this round. -/
  noToolRetries : Nat
  /-- Whether `await queue.waitForMessage()` is reached (executor lines 325-329). -/
  entersWait : Bool
deriving DecidableEq, Repr

/-- Executor lines 290-330, after the assistant message and any tool results
have been appended to `ctx`: persist the context, then the no-tool-call nudge
logic (`toolCallsPresent` is the truthiness of `llmResponse.toolCalls`;
`retries` the current `noToolRetries`; `shouldWait` whatever the tool results
set — necessarily `false` when there were no tool calls), then the wait check.
`continue` after the nudge skips the wait check; the next iteration reloads
the context from disk. -/
def roundTail (toolCallsPresent shouldWait : Bool) (retries : Nat) (ctx : List Message) :
    RoundOutcome :=
  if !toolCallsPresent then
    let retries1 := retries + 1
    if retries1 ≤ 2 then
      { savedContext := ctx
        memContext := ctx ++ [nudgeMessage]
        nextLoadedContext := ctx
        noToolRetries := retries1
        entersWait := false }
    else
      { savedContext := ctx
        memContext := ctx
        nextLoadedContext := ctx
        noToolRetries := 0
        entersWait := shouldWait }
  else
    { savedContext := ctx
      memContext := ctx
      nextLoadedContext := ctx
      noToolRetries := 0
      entersWait := shouldWait }

/-! ## bash tool — inline result formatting (unnamed part_005) -/

/-- `MAX_INLINE_LINES` (part_005 line 7). -/
def MAX_INLINE_LINES : Nat := 100

/-- JS `output.split("\n")` on the character list: splitting at every newline,
`""` gives `[""]`, a trailing newline yields a trailing empty segment. -/
def splitNlAux : List Char → List (List Char)
  | [] => [[]]
  | c :: rest =>
    match splitNlAux rest with
    | [] => [[]]
    | h :: t => if c = '\n' then [] :: h :: t else (c :: h) :: t

/-- JS `output.split("\n")`. -/
def jsSplitLines (s : String) : List String :=
  (splitNlAux s.data).map String.mk

/-- `formatResult` (part_005 lines 19-29): empty output is reported as such;
at most 100 lines (split on newline) are returned inline with no file written;
more lines write the full output to `/workspace/.tool-output/<saveId>.txt`
(`saveId` models the fresh `crypto.randomUUID().slice(0, 8)`) and return the
first 50 lines plus a truncation banner.  The second component is the saved
file (path and contents) when one was written. -/
def formatResult (saveId output : String) : String × Option (String × String) :=
  if output = "" then ("(no output)", none)
  else
    let lines := jsSplitLines output
    if lines.length ≤ MAX_INLINE_LINES then (output, none)
    else
      let filePath := "/workspace/.tool-output/" ++ saveId ++ ".txt"
      let preview := String.intercalate "\n" (lines.take 50)
      (preview ++ "\n\n[Output truncated: " ++ toString lines.length
         ++ " lines total. Full output saved to " ++ filePath
         ++ ". Use read_file with offset/limit to read more.]",
       some (filePath, output))

/-- Observable outcome of the synchronous completion path of `bash.execute`
(part_005 lines 109-121, the `!resolved` branch of `child.on(close)`). -/
structure BashSyncOutcome where
  inlineResult : String
  /-- The transient streaming file `/workspace/.tool-output/<jobId>.txt` is
  unlinked on this path (part_005 line 120). -/
  streamFileDeleted : Bool
  /-- The saved output file written by `formatResult`, when truncation
  happened. -/
  savedFile : Option (String × String)
deriving DecidableEq, Repr

/-- The synchronous completion path of `bash.execute`: the process exited with
`code` before the 5 s async threshold, having produced `stdoutData` and
`stderrData`; the streaming file is deleted and the (possibly truncated)
output returned inline. -/
def bashSyncComplete (saveId : String) (code : Int) (stdoutData stderrData : String) :
    BashSyncOutcome :=
  let output :=
    if code = 0 then stdoutData
    else "Exit code: " ++ toString code ++ "\nStderr: " ++ stderrData ++ "\nStdout: " ++ stdoutData
  let fr := formatResult saveId output
  { inlineResult := fr.1
    streamFileDeleted := true
    savedFile := fr.2 }

/-! ## Concrete test data used by witnesses -/

/-- A string of `n` copies of the character `a`, used to build concrete
contexts of controlled size. -/
def bigStr (n : Nat) : String :=
  String.mk (List.replicate n 'a')

/-- A plain user message. -/
def userMsg (c : String) : Message :=
  { role := Role.user, content := some c, toolCalls := none, toolCallId := none }

/-- A plain assistant message without tool calls. -/
def assistantMsg (c : String) : Message :=
  { role := Role.assistant, content := some c, toolCalls := none, toolCallId := none }

/-- An assistant message carrying tool calls. -/
def assistantCalling (tcs : List ToolCall) : Message :=
  { role := Role.assistant, content := none, toolCalls := some tcs, toolCallId := none }

/-- A concrete context of estimated size 80 000 with an old 5 000-char tool
result in front of three protected assistant messages. -/
def c3SoftCtx : List Message :=
  [toolMsg "t1" (bigStr 5000), assistantMsg (bigStr 25000),
   assistantMsg (bigStr 25000), assistantMsg (bigStr 25000)]

/-- A concrete context of estimated size 125 000 (hard-clear regime). -/
def c3HardCtx : List Message :=
  [toolMsg "t1" (bigStr 5000), assistantMsg (bigStr 40000),
   assistantMsg (bigStr 40000), assistantMsg (bigStr 40000)]

/-- A concrete context of estimated size 160 000 (compaction threshold). -/
def c3CompactCtx : List Message :=
  [userMsg (bigStr 160000)]

/-- The persisted-context pairing invariant exactly as the claim words it:
every tool message's `toolCallId` is the id of a tool call on some EARLIER
assistant message; no `toolCallId` appears on more than one tool message;
every assistant tool call id has a matching LATER tool message.  Stated for
comparison with what `repairToolPairing` actually guarantees. -/
def claimedPairingInvariant (l : List Message) : Prop :=
  (∀ i : Fin l.length, (l.get i).role = Role.tool →
    ∀ tid ∈ ((l.get i).toolCallId).toList,
      ∃ j : Fin l.length, j.val < i.val ∧ tid ∈ msgCallIds (l.get j))
  ∧ (∀ i j : Fin l.length, i.val ≠ j.val → (l.get i).role = Role.tool →
      (l.get j).role = Role.tool →
      ∀ tid ∈ ((l.get i).toolCallId).toList, (l.get j).toolCallId ≠ some tid)
  ∧ (∀ i : Fin l.length, ∀ tid ∈ msgCallIds (l.get i),
      ∃ j : Fin l.length, i.val < j.val ∧ (l.get j).role = Role.tool
        ∧ (l.get j).toolCallId = some tid)

/-- A context whose tool result precedes the assistant message carrying the
matching tool call. -/
def c1CeCtx : List Message :=
  [toolMsg "a" "res", assistantCalling [⟨"a", "bash", "x"⟩]]

/-- A context with one orphaned tool result, one duplicate tool result, and
one assistant tool call without any result. -/
def c1Ctx : List Message :=
  [assistantCalling [⟨"a", "bash", "x"⟩, ⟨"b", "bash", "y"⟩],
   toolMsg "a" "res-a", toolMsg "zz" "orphan", toolMsg "a" "dup"]

/-- A context whose assistant tool call has the empty string as id. -/
def c10Ctx : List Message :=
  [assistantCalling [⟨"", "bash", "x"⟩]]

/-- A bash output of exactly 100 lines (99 newline characters). -/
def c7Out100 : String :=
  String.mk (List.replicate 99 '\n')

/-- A bash output of exactly 101 lines (100 newline characters). -/
def c7Out101 : String :=
  String.mk (List.replicate 100 '\n')

/-! ## Lemmas about pruning -/

theorem bigStr_length (n : Nat) : (bigStr n).length = n := by
  simp [bigStr, String.length]

theorem estimate_foldl_shift (rest : List Message) :
    ∀ s : Nat,
      rest.foldl (fun sum m => sum + estimateMessageChars m) s
        = s + rest.foldl (fun sum m => sum + estimateMessageChars m) 0 := by
  induction rest with
  | nil => intro s; simp
  | cons r t ih =>
    intro s
    show t.foldl _ (s + estimateMessageChars r) = s + t.foldl _ (0 + estimateMessageChars r)
    rw [ih (s + estimateMessageChars r), ih (0 + estimateMessageChars r)]
    omega

theorem estimateContextChars_nil : estimateContextChars [] = 0 := rfl

theorem estimateContextChars_cons (m : Message) (rest : List Message) :
    estimateContextChars (m :: rest) = estimateMessageChars m + estimateContextChars rest := by
  show rest.foldl _ (0 + estimateMessageChars m) = _
  rw [estimate_foldl_shift rest (0 + estimateMessageChars m)]
  show 0 + estimateMessageChars m + estimateContextChars rest = _
  omega

theorem estimateMessageChars_toolMsg (tid c : String) :
    estimateMessageChars (toolMsg tid c) = c.length := by
  simp [estimateMessageChars, toolMsg]

theorem estimateMessageChars_userMsg (c : String) :
    estimateMessageChars (userMsg c) = c.length := by
  simp [estimateMessageChars, userMsg]

theorem estimateMessageChars_assistantMsg (c : String) :
    estimateMessageChars (assistantMsg c) = c.length := by
  simp [estimateMessageChars, assistantMsg]

theorem c3SoftCtx_estimate : estimateContextChars c3SoftCtx = 80000 := by
  rw [c3SoftCtx, estimateContextChars_cons, estimateContextChars_cons,
    estimateContextChars_cons, estimateContextChars_cons, estimateContextChars_nil,
    estimateMessageChars_toolMsg, estimateMessageChars_assistantMsg,
    bigStr_length, bigStr_length]

theorem c3HardCtx_estimate : estimateContextChars c3HardCtx = 125000 := by
  rw [c3HardCtx, estimateContextChars_cons, estimateContextChars_cons,
    estimateContextChars_cons, estimateContextChars_cons, estimateContextChars_nil,
    estimateMessageChars_toolMsg, estimateMessageChars_assistantMsg,
    bigStr_length, bigStr_length]

theorem c3CompactCtx_estimate : estimateContextChars c3CompactCtx = 160000 := by
  rw [c3CompactCtx, estimateContextChars_cons, estimateContextChars_nil,
    estimateMessageChars_userMsg, bigStr_length]

theorem c3SoftCtx_cutoff : findPruneCutoff c3SoftCtx 3 = 1 := rfl

theorem c3HardCtx_cutoff : findPruneCutoff c3HardCtx 3 = 1 := rfl

theorem pruneOne_role (b : Bool) (m : Message) : (pruneOne b m).role = m.role := by
  unfold pruneOne
  split
  · cases hm : m.content <;> simp
    split <;> [rfl; skip]
    split <;> [skip; rfl]
    · split <;> rfl
  · rfl

theorem pruneOne_toolCalls (b : Bool) (m : Message) : (pruneOne b m).toolCalls = m.toolCalls := by
  unfold pruneOne
  split
  · cases hm : m.content <;> simp
    split <;> [rfl; skip]
    split <;> [skip; rfl]
    · split <;> rfl
  · rfl

theorem pruneOne_toolCallId (b : Bool) (m : Message) : (pruneOne b m).toolCallId = m.toolCallId := by
  unfold pruneOne
  split
  · cases hm : m.content <;> simp
    split <;> [rfl; skip]
    split <;> [skip; rfl]
    · split <;> rfl
  · rfl

theorem pruneOne_not_tool (b : Bool) (m : Message) (h : m.role ≠ Role.tool) :
    pruneOne b m = m := by
  unfold pruneOne
  simp [h]

theorem pruneList_length (b : Bool) (c : Nat) :
    ∀ (l : List Message) (i : Nat), (pruneList b c i l).length = l.length
  | [], _ => rfl
  | _ :: rest, i => by
    simp [pruneList, pruneList_length b c rest (i + 1)]

theorem pruneList_get? (b : Bool) (c : Nat) :
    ∀ (l : List Message) (i j : Nat),
      (pruneList b c i l).get? j =
        (l.get? j).map (fun m => if i + j < c then pruneOne b m else m)
  | [], _, _ => by simp [pruneList]
  | m :: rest, i, 0 => by simp [pruneList]
  | m :: rest, i, j + 1 => by
    have harith : (i + 1) + j = i + (j + 1) := by omega
    simp only [pruneList, List.get?_cons_succ, pruneList_get? b c rest (i + 1) j, harith]

theorem pruneContext_of_small (messages : List Message)
    (h : estimateContextChars messages < PRUNE_SOFT_CHARS) :
    pruneContext messages = messages := by
  unfold pruneContext
  simp [h]

theorem pruneContext_get? (messages : List Message)
    (h80 : PRUNE_SOFT_CHARS ≤ estimateContextChars messages)
    (hc : findPruneCutoff messages KEEP_LAST_ASSISTANTS ≠ 0) (j : Nat) :
    (pruneContext messages).get? j =
      (messages.get? j).map
        (fun m =>
          if j < findPruneCutoff messages KEEP_LAST_ASSISTANTS then
            pruneOne (decide (PRUNE_HARD_CHARS ≤ estimateContextChars messages)) m
          else m) := by
  unfold pruneContext
  rw [if_neg (by omega), if_neg hc]
  simpa using pruneList_get? _ _ messages 0 j

theorem pruneContext_length (messages : List Message) :
    (pruneContext messages).length = messages.length := by
  unfold pruneContext
  by_cases h1 : estimateContextChars messages < PRUNE_SOFT_CHARS
  · simp [h1]
  · by_cases h2 : findPruneCutoff messages KEEP_LAST_ASSISTANTS = 0
    · simp [h1, h2]
    · simp [h1, h2, pruneList_length]

/-! ## C3 — pruning and compaction thresholds -/

/-- C3: `pruneContext` leaves any context of estimated size below 80 000
characters unchanged; between 80 000 and 120 000 it soft-trims eligible old
tool results longer than 4 000 characters to first 1500 + banner + last 1500;
from 120 000 it replaces eligible old tool results longer than 100 characters
with the clearing placeholder; and `shouldCompress` triggers exactly at
estimated size ≥ 160 000. -/
theorem claim_C3_prune_thresholds :
    (∀ messages : List Message,
      estimateContextChars messages < 80000 → pruneContext messages = messages)
    ∧ (∀ (messages : List Message) (i : Nat) (m : Message) (c : String),
      80000 ≤ estimateContextChars messages →
      estimateContextChars messages < 120000 →
      i < findPruneCutoff messages 3 →
      messages.get? i = some m → m.role = Role.tool → m.content = some c →
      4000 < c.length →
      (pruneContext messages).get? i =
        some { m with content := some (c.take 1500
          ++ "\n...\n[Trimmed: kept first 1500 + last 1500 of "
          ++ toString c.length ++ " chars]\n...\n"
          ++ c.takeRight 1500) })
    ∧ (∀ (messages : List Message) (i : Nat) (m : Message) (c : String),
      120000 ≤ estimateContextChars messages →
      i < findPruneCutoff messages 3 →
      messages.get? i = some m → m.role = Role.tool → m.content = some c →
      100 < c.length →
      (pruneContext messages).get? i =
        some { m with content := some "[Tool result cleared to save context space]" })
    ∧ (∀ messages : List Message,
      shouldCompress messages = true ↔ 160000 ≤ estimateContextChars messages) := by
  refine ⟨?_, ?_, ?_, ?_⟩
  · intro messages h
    exact pruneContext_of_small messages (by simpa [PRUNE_SOFT_CHARS] using h)
  · intro messages i m c h80 h120 hi hget hrole hcontent hlen
    have hc : findPruneCutoff messages KEEP_LAST_ASSISTANTS ≠ 0 := by
      simp only [KEEP_LAST_ASSISTANTS]
      omega
    have hb : decide (PRUNE_HARD_CHARS ≤ estimateContextChars messages) = false := by
      simp only [PRUNE_HARD_CHARS, decide_eq_false_iff_not]
      omega
    rw [pruneContext_get? messages (by simpa [PRUNE_SOFT_CHARS] using h80) hc, hget]
    simp only [Option.map_some', KEEP_LAST_ASSISTANTS]
    rw [if_pos hi, hb]
    unfold pruneOne
    rw [if_pos hrole, hcontent]
    have hce : c ≠ "" := by
      intro he
      subst he
      simp at hlen
    simp only [hce, if_false, Bool.false_eq_true, if_neg]
    unfold softTrimContent
    rw [if_neg (by simp only [SOFT_TRIM_THRESHOLD]; omega)]
    rfl
  · intro messages i m c h120 hi hget hrole hcontent hlen
    have hc : findPruneCutoff messages KEEP_LAST_ASSISTANTS ≠ 0 := by
      simp only [KEEP_LAST_ASSISTANTS]
      omega
    have hb : decide (PRUNE_HARD_CHARS ≤ estimateContextChars messages) = true := by
      simp only [PRUNE_HARD_CHARS, decide_eq_true_iff]
      omega
    rw [pruneContext_get? messages (by simp only [PRUNE_SOFT_CHARS]; omega) hc, hget]
    simp only [Option.map_some', KEEP_LAST_ASSISTANTS]
    rw [if_pos hi, hb]
    unfold pruneOne
    rw [if_pos hrole, hcontent]
    have hce : c ≠ "" := by
      intro he
      subst he
      simp at hlen
    simp only [hce, if_false, if_true]
    rw [if_pos hlen]
    rfl
  · intro messages
    simp [shouldCompress, COMPACT_CHARS]

/-- Witness for C3 at concrete contexts: a 2-char context is untouched; the
80 000-char context gets its old 5 000-char tool result soft-trimmed; the
125 000-char context gets it cleared; the 160 000-char context triggers
compaction. -/
theorem claim_C3_witness :
    (estimateContextChars [userMsg "hi"] < 80000
      ∧ pruneContext [userMsg "hi"] = [userMsg "hi"])
    ∧ (80000 ≤ estimateContextChars c3SoftCtx
      ∧ estimateContextChars c3SoftCtx < 120000
      ∧ 0 < findPruneCutoff c3SoftCtx 3
      ∧ (pruneContext c3SoftCtx).get? 0 =
          some { toolMsg "t1" (bigStr 5000) with content := some ((bigStr 5000).take 1500
            ++ "\n...\n[Trimmed: kept first 1500 + last 1500 of "
            ++ toString (bigStr 5000).length ++ " chars]\n...\n"
            ++ (bigStr 5000).takeRight 1500) })
    ∧ (120000 ≤ estimateContextChars c3HardCtx
      ∧ (pruneContext c3HardCtx).get? 0 =
          some { toolMsg "t1" (bigStr 5000) with
            content := some "[Tool result cleared to save context space]" })
    ∧ shouldCompress c3CompactCtx = true := by
  have h1 : estimateContextChars [userMsg "hi"] < 80000 := by
    rw [estimateContextChars_cons, estimateContextChars_nil, estimateMessageChars_userMsg]
    norm_num [String.length]
  refine ⟨⟨h1, claim_C3_prune_thresholds.1 _ h1⟩, ⟨?_, ?_, ?_, ?_⟩, ⟨?_, ?_⟩, ?_⟩
  · rw [c3SoftCtx_estimate]
  · rw [c3SoftCtx_estimate]
    norm_num
  · rw [c3SoftCtx_cutoff]
    norm_num
  · exact claim_C3_prune_thresholds.2.1 c3SoftCtx 0 _ (bigStr 5000)
      (by rw [c3SoftCtx_estimate]) (by rw [c3SoftCtx_estimate]; norm_num)
      (by rw [c3SoftCtx_cutoff]; norm_num) rfl rfl rfl
      (by rw [bigStr_length]; norm_num)
  · rw [c3HardCtx_estimate]
    norm_num
  · exact claim_C3_prune_thresholds.2.2.1 c3HardCtx 0 _ (bigStr 5000)
      (by rw [c3HardCtx_estimate]; norm_num)
      (by rw [c3HardCtx_cutoff]; norm_num) rfl rfl rfl
      (by rw [bigStr_length]; norm_num)
  · exact (claim_C3_prune_thresholds.2.2.2 c3CompactCtx).2 (by rw [c3CompactCtx_estimate])

/-! ## C8 — pruning is a pure rewrite of old tool-result contents -/

/-- C8: when pruning applies (total estimated chars ≥ 80 000 and at least 3
assistant messages exist), `pruneContext` only rewrites the `content` of tool
messages strictly before the cut-off index: the message count, every message
at or after the cut-off, every non-tool message, and the role, `toolCallId`
and `toolCalls` of every message are unchanged. -/
theorem claim_C8_prune_frame (messages : List Message)
    (h80 : 80000 ≤ estimateContextChars messages)
    (h3 : 3 ≤ (messages.filter (fun m => m.role = Role.assistant)).length) :
    ((pruneContext messages).length = messages.length)
    ∧ (∀ i m, messages.get? i = some m → findPruneCutoff messages 3 ≤ i →
        (pruneContext messages).get? i = some m)
    ∧ (∀ i m, messages.get? i = some m → m.role ≠ Role.tool →
        (pruneContext messages).get? i = some m)
    ∧ (∀ i m, messages.get? i = some m →
        ∃ m', (pruneContext messages).get? i = some m'
          ∧ m'.role = m.role ∧ m'.toolCallId = m.toolCallId ∧ m'.toolCalls = m.toolCalls) := by
  by_cases hc : findPruneCutoff messages KEEP_LAST_ASSISTANTS = 0
  · have he : pruneContext messages = messages := by
      unfold pruneContext
      by_cases h1 : estimateContextChars messages < PRUNE_SOFT_CHARS
      · simp [h1]
      · simp [h1, hc]
    refine ⟨by rw [he], ?_, ?_, ?_⟩
    · intro i m hget _
      rw [he, hget]
    · intro i m hget _
      rw [he, hget]
    · intro i m hget
      exact ⟨m, by rw [he, hget], rfl, rfl, rfl⟩
  · have hget' := pruneContext_get? messages (by simpa [PRUNE_SOFT_CHARS] using h80) hc
    refine ⟨pruneContext_length messages, ?_, ?_, ?_⟩
    · intro i m hget hcut
      rw [hget' i, hget]
      have : ¬ i < findPruneCutoff messages KEEP_LAST_ASSISTANTS := by
        simp only [KEEP_LAST_ASSISTANTS]
        omega
      simp [this]
    · intro i m hget hrole
      rw [hget' i, hget]
      simp only [Option.map_some']
      split
      · rw [pruneOne_not_tool _ _ hrole]
      · rfl
    · intro i m hget
      rw [hget' i, hget]
      simp only [Option.map_some']
      split
      · exact ⟨pruneOne _ m, rfl, pruneOne_role _ m, pruneOne_toolCallId _ m, pruneOne_toolCalls _ m⟩
      · exact ⟨m, rfl, rfl, rfl, rfl⟩

/-- Witness for C8 at the concrete 80 000-char context: the protected
assistant messages are returned unchanged while only the old tool result's
content may change. -/
theorem claim_C8_witness :
    80000 ≤ estimateContextChars c3SoftCtx
    ∧ 3 ≤ (c3SoftCtx.filter (fun m => m.role = Role.assistant)).length
    ∧ (pruneContext c3SoftCtx).length = c3SoftCtx.length
    ∧ (pruneContext c3SoftCtx).get? 1 = some (assistantMsg (bigStr 25000))
    ∧ (∃ m', (pruneContext c3SoftCtx).get? 0 = some m'
        ∧ m'.role = (toolMsg "t1" (bigStr 5000)).role
        ∧ m'.toolCallId = (toolMsg "t1" (bigStr 5000)).toolCallId
        ∧ m'.toolCalls = (toolMsg "t1" (bigStr 5000)).toolCalls) := by
  have h80 : 80000 ≤ estimateContextChars c3SoftCtx := by rw [c3SoftCtx_estimate]
  have h3 : 3 ≤ (c3SoftCtx.filter (fun m => m.role = Role.assistant)).length := by
    rw [show (c3SoftCtx.filter (fun m => m.role = Role.assistant)).length = 3 from rfl]
  refine ⟨h80, h3, (claim_C8_prune_frame c3SoftCtx h80 h3).1, ?_, ?_⟩
  · exact (claim_C8_prune_frame c3SoftCtx h80 h3).2.1 1 (assistantMsg (bigStr 25000)) rfl
      (by rw [c3SoftCtx_cutoff])
  · exact (claim_C8_prune_frame c3SoftCtx h80 h3).2.2.2 0 (toolMsg "t1" (bigStr 5000)) rfl


/-! ## C5 — tool dispatch error handling -/

/-- C5: `executeToolCall` returns `ERROR: unknown tool "<name>"` for a call
that is neither a builtin (`think`, `reply`, `wait_for`) nor a loaded user
tool; a user tool hitting the 30 000 ms timeout yields
`ERROR: Tool "<name>" timed out after 30000ms`; a user tool that throws
yields `ERROR: <message>`.  In all three failure cases a tool message is
returned (never an exception, so the round continues) with
`shouldWait = false`. -/
theorem claim_C5_tool_failures :
    (∀ (callName callId : String) (userToolNames : List String) (outcome : ExecOutcome)
        (src : String) (deliv : Except String (DeliveryResult × DeliveryEffect)),
      callName ≠ "think" → callName ≠ "reply" → callName ≠ "wait_for" →
      callName ∉ userToolNames →
      executeToolCall callName callId userToolNames outcome src deliv =
        { messages := [toolMsg callId ("ERROR: unknown tool \"" ++ callName ++ "\"")]
          shouldWait := false })
    ∧ (∀ (callName callId : String) (userToolNames : List String)
        (src : String) (deliv : Except String (DeliveryResult × DeliveryEffect)),
      callName ≠ "think" → callName ≠ "reply" → callName ≠ "wait_for" →
      callName ∈ userToolNames →
      executeToolCall callName callId userToolNames ExecOutcome.timedOut src deliv =
        { messages := [toolMsg callId ("ERROR: Tool \"" ++ callName ++ "\" timed out after 30000ms")]
          shouldWait := false })
    ∧ (∀ (callName callId : String) (userToolNames : List String) (errMsg : String)
        (src : String) (deliv : Except String (DeliveryResult × DeliveryEffect)),
      callName ≠ "think" → callName ≠ "reply" → callName ≠ "wait_for" →
      callName ∈ userToolNames →
      executeToolCall callName callId userToolNames (ExecOutcome.thrown errMsg) src deliv =
        { messages := [toolMsg callId ("ERROR: " ++ errMsg)]
          shouldWait := false }) := by
  refine ⟨?_, ?_, ?_⟩
  · intro callName callId userToolNames outcome src deliv h1 h2 h3 h4
    unfold executeToolCall
    rw [if_neg h1, if_neg h2, if_neg h3, if_neg h4]
  · intro callName callId userToolNames src deliv h1 h2 h3 h4
    unfold executeToolCall
    rw [if_neg h1, if_neg h2, if_neg h3, if_pos h4]
    have : "ERROR: " ++ timeoutErrMsg callName
        = "ERROR: Tool \"" ++ callName ++ "\" timed out after 30000ms" := by
      unfold timeoutErrMsg
      rw [show toString TOOL_TIMEOUT_MS = "30000" from rfl]
      simp only [String.append_assoc]
      rw [← String.append_assoc "ERROR: " "Tool \""]
      rfl
    rw [this]
  · intro callName callId userToolNames errMsg src deliv h1 h2 h3 h4
    unfold executeToolCall
    rw [if_neg h1, if_neg h2, if_neg h3, if_pos h4]

/-- Witness for C5: an unknown tool name, a timed-out user tool, and a
throwing user tool, each at concrete inputs. -/
theorem claim_C5_witness :
    ("nosuch" ≠ "think" ∧ "nosuch" ∉ (["mytool"] : List String)
      ∧ executeToolCall "nosuch" "id1" ["mytool"] (ExecOutcome.success "ok" false) "s"
          (Except.ok (DeliveryResult.outbox, DeliveryEffect.wroteOutbox ⟨"i", "s", "c", 0⟩ "p")) =
        { messages := [toolMsg "id1" ("ERROR: unknown tool \"" ++ "nosuch" ++ "\"")]
          shouldWait := false })
    ∧ ("mytool" ∈ (["mytool"] : List String)
      ∧ executeToolCall "mytool" "id2" ["mytool"] ExecOutcome.timedOut "s"
          (Except.ok (DeliveryResult.outbox, DeliveryEffect.wroteOutbox ⟨"i", "s", "c", 0⟩ "p")) =
        { messages := [toolMsg "id2" ("ERROR: Tool \"" ++ "mytool" ++ "\" timed out after 30000ms")]
          shouldWait := false })
    ∧ (executeToolCall "mytool" "id3" ["mytool"] (ExecOutcome.thrown "boom") "s"
          (Except.ok (DeliveryResult.outbox, DeliveryEffect.wroteOutbox ⟨"i", "s", "c", 0⟩ "p")) =
        { messages := [toolMsg "id3" ("ERROR: " ++ "boom")]
          shouldWait := false }) := by
  refine ⟨⟨by decide, by decide, ?_⟩, ⟨by decide, ?_⟩, ?_⟩
  · exact claim_C5_tool_failures.1 "nosuch" "id1" ["mytool"] (ExecOutcome.success "ok" false) "s" _
      (by decide) (by decide) (by decide) (by decide)
  · exact claim_C5_tool_failures.2.1 "mytool" "id2" ["mytool"] "s" _
      (by decide) (by decide) (by decide) (by decide)
  · exact claim_C5_tool_failures.2.2 "mytool" "id3" ["mytool"] "boom" "s" _
      (by decide) (by decide) (by decide) (by decide)



/-! ## C4 — reply routing -/

/-- C4 counterexample: the claim derives the routing key as the prefix up to
the first colon (`specRouteKey`), but for the source `":x"` — whose first
colon is at index 0 — the code (`routeKey`, using `colonIdx > 0`) keys on the
whole string; with a routes table mapping `""` to a url, the claim predicts a
POST while the code writes to the outbox. -/
theorem claim_C4_counterexample :
    routeKey ":x" = ":x"
    ∧ specRouteKey ":x" = ""
    ∧ lookupRoute [("", "http://hook")] (specRouteKey ":x") = some "http://hook"
    ∧ deliverReply [("", "http://hook")] (fun _ => ⟨200, "ok"⟩) "id1" 0 ":x" "hello"
        = Except.ok (DeliveryResult.outbox,
            DeliveryEffect.wroteOutbox ⟨"id1", ":x", "hello", 0⟩ "outbox/id1.json") :=
  ⟨rfl, rfl, rfl, rfl⟩

/-- C4 (amended): the routing key is the prefix of `source` up to the first
colon when that colon is at a positive index, and the whole string when there
is no colon or the colon is the leading character.  With that key: a route
with a non-empty url and a 2xx POST response delivers to the url with JSON
body `{source, content}`; a non-2xx response raises a delivery error which
the `reply` builtin surfaces as an `ERROR delivering reply:` tool result; no
matching route writes an `OutboxMessage` with the fresh id to
`outbox/<id>.json`; and the tool-result string names the destination used. -/
theorem claim_C4_amended :
    (∀ (source : String) (n : Nat),
      source.data.findIdx? (fun c => c = ':') = some n → 0 < n → routeKey source = source.take n)
    ∧ (∀ source : String,
      source.data.findIdx? (fun c => c = ':') = none → routeKey source = source)
    ∧ (∀ source : String,
      source.data.findIdx? (fun c => c = ':') = some 0 → routeKey source = source)
    ∧ (∀ (routes : List (String × String)) (post : String → PostOutcome)
        (newId : String) (now : Nat) (source content url : String),
      lookupRoute routes (routeKey source) = some url → url ≠ "" →
      200 ≤ (post url).status → (post url).status < 300 →
      deliverReply routes post newId now source content =
        Except.ok (DeliveryResult.route url, DeliveryEffect.posted url source content))
    ∧ (∀ (routes : List (String × String)) (post : String → PostOutcome)
        (newId : String) (now : Nat) (source content url : String),
      lookupRoute routes (routeKey source) = some url → url ≠ "" →
      ¬ (200 ≤ (post url).status ∧ (post url).status < 300) →
      deliverReply routes post newId now source content =
        Except.error ("Route POST to " ++ url ++ " failed: "
          ++ toString (post url).status ++ " " ++ (post url).text))
    ∧ (∀ (routes : List (String × String)) (post : String → PostOutcome)
        (newId : String) (now : Nat) (source content : String),
      lookupRoute routes (routeKey source) = none →
      deliverReply routes post newId now source content =
        Except.ok (DeliveryResult.outbox,
          DeliveryEffect.wroteOutbox ⟨newId, source, content, now⟩
            ("outbox/" ++ newId ++ ".json")))
    ∧ (∀ (callId src url : String) (e : DeliveryEffect),
      replyToolResult callId src (Except.ok (DeliveryResult.route url, e)) =
        { messages := [toolMsg callId ("Reply delivered to " ++ src ++ " via " ++ url)]
          shouldWait := false })
    ∧ (∀ (callId src : String) (e : DeliveryEffect),
      replyToolResult callId src (Except.ok (DeliveryResult.outbox, e)) =
        { messages := [toolMsg callId ("Reply written to outbox for " ++ src ++ " (no route matched)")]
          shouldWait := false })
    ∧ (∀ (callId src errMsg : String) (userToolNames : List String) (outcome : ExecOutcome),
      executeToolCall "reply" callId userToolNames outcome src (Except.error errMsg) =
        { messages := [toolMsg callId ("ERROR delivering reply: " ++ errMsg)]
          shouldWait := false }) := by
  refine ⟨?_, ?_, ?_, ?_, ?_, ?_, ?_, ?_, ?_⟩
  · intro source n hf hn
    unfold routeKey
    rw [hf]
    simp [hn]
  · intro source hf
    unfold routeKey
    rw [hf]
  · intro source hf
    unfold routeKey
    rw [hf]
    simp
  · intro routes post newId now source content url hl hu h1 h2
    unfold deliverReply
    simp only [hl]
    rw [if_neg hu, if_pos ⟨h1, h2⟩]
  · intro routes post newId now source content url hl hu hnot
    unfold deliverReply
    simp only [hl]
    rw [if_neg hu, if_neg hnot]
  · intro routes post newId now source content hl
    unfold deliverReply
    simp only [hl]
    rfl
  · intro callId src url e
    rfl
  · intro callId src e
    rfl
  · intro callId src errMsg userToolNames outcome
    unfold executeToolCall
    rw [if_neg (by decide), if_pos rfl]
    rfl

/-- Witness for C4 (amended) at concrete routes and sources: key extraction
for `"bridge:s1"`, a successful POST, a failed POST surfaced as an ERROR tool
result, and the outbox fallback for an unrouted source. -/
theorem claim_C4_witness :
    ("bridge:s1".data.findIdx? (fun c => c = ':') = some 6
      ∧ routeKey "bridge:s1" = "bridge:s1".take 6)
    ∧ (lookupRoute [("bridge", "http://hook")] (routeKey "bridge:s1") = some "http://hook"
      ∧ deliverReply [("bridge", "http://hook")] (fun _ => ⟨204, "ok"⟩) "fid" 3 "bridge:s1" "X"
        = Except.ok (DeliveryResult.route "http://hook",
            DeliveryEffect.posted "http://hook" "bridge:s1" "X"))
    ∧ (deliverReply [("bridge", "http://hook")] (fun _ => ⟨500, "boom"⟩) "fid" 3 "bridge:s1" "X"
        = Except.error ("Route POST to " ++ "http://hook" ++ " failed: "
            ++ toString ((fun (_ : String) => (⟨500, "boom"⟩ : PostOutcome)) "http://hook").status
            ++ " " ++ ((fun (_ : String) => (⟨500, "boom"⟩ : PostOutcome)) "http://hook").text))
    ∧ (lookupRoute [("bridge", "http://hook")] (routeKey "other:s2") = none
      ∧ deliverReply [("bridge", "http://hook")] (fun _ => ⟨204, "ok"⟩) "fid" 3 "other:s2" "Y"
        = Except.ok (DeliveryResult.outbox,
            DeliveryEffect.wroteOutbox ⟨"fid", "other:s2", "Y", 3⟩ ("outbox/" ++ "fid" ++ ".json")))
    ∧ (replyToolResult "c9" "bridge:s1"
        (Except.ok (DeliveryResult.route "http://hook",
          DeliveryEffect.posted "http://hook" "bridge:s1" "X"))
        = { messages := [toolMsg "c9" ("Reply delivered to " ++ "bridge:s1" ++ " via " ++ "http://hook")]
            shouldWait := false })
    ∧ (executeToolCall "reply" "c9" [] (ExecOutcome.success "" false) "bridge:s1"
        (Except.error "nope")
        = { messages := [toolMsg "c9" ("ERROR delivering reply: " ++ "nope")]
            shouldWait := false }) := by
  refine ⟨⟨by decide, ?_⟩, ⟨by decide, ?_⟩, ?_, ⟨by decide, ?_⟩, ?_, ?_⟩
  · exact claim_C4_amended.1 "bridge:s1" 6 (by decide) (by decide)
  · exact claim_C4_amended.2.2.2.1 _ _ "fid" 3 "bridge:s1" "X" "http://hook"
      (by decide) (by decide) (by decide) (by decide)
  · exact claim_C4_amended.2.2.2.2.1 _ _ "fid" 3 "bridge:s1" "X" "http://hook"
      (by decide) (by decide) (by decide)
  · exact claim_C4_amended.2.2.2.2.2.1 _ _ "fid" 3 "other:s2" "Y" (by decide)
  · exact claim_C4_amended.2.2.2.2.2.2.1 "c9" "bridge:s1" "http://hook" _
  · exact claim_C4_amended.2.2.2.2.2.2.2.2 "c9" "bridge:s1" "nope" [] (ExecOutcome.success "" false)

/-! ## C6 — round counter update -/

/-- C6: the end-of-round state write takes the freshly re-read `agent.json`
and changes only its `round` field, to the value read at the start of the
round plus one, preserving every other field (including self-edits); along a
trace of rounds the recorded `round` increases by one each round and is
therefore non-decreasing. -/
theorem claim_C6_round_counter :
    (∀ s f : AgentState,
      (saveRoundState s f).round = s.round + 1
      ∧ (saveRoundState s f).provider = f.provider
      ∧ (saveRoundState s f).model = f.model
      ∧ (saveRoundState s f).maxRounds = f.maxRounds
      ∧ (saveRoundState s f).systemPrompt = f.systemPrompt
      ∧ (saveRoundState s f).role = f.role)
    ∧ (∀ (init : AgentState) (fresh : Nat → AgentState) (n : Nat),
      (statesTrace init fresh (n + 1)).round = (statesTrace init fresh n).round + 1)
    ∧ (∀ (init : AgentState) (fresh : Nat → AgentState) (n m : Nat),
      n ≤ m → (statesTrace init fresh n).round ≤ (statesTrace init fresh m).round) := by
  refine ⟨?_, ?_, ?_⟩
  · intro s f
    exact ⟨rfl, rfl, rfl, rfl, rfl, rfl⟩
  · intro init fresh n
    rfl
  · intro init fresh n m h
    induction h with
    | refl => exact Nat.le_refl _
    | step h ih =>
      rename_i k
      refine Nat.le_trans ih ?_
      show (statesTrace init fresh k).round ≤ (statesTrace init fresh (k + 1)).round
      rw [show (statesTrace init fresh (k + 1)).round = (statesTrace init fresh k).round + 1 from rfl]
      omega

/-- Witness for C6 at a concrete start state and a concrete self-edited
re-read state. -/
theorem claim_C6_witness :
    (saveRoundState ⟨"openai", none, 7, none, "sys", none⟩
        ⟨"anthropic", some "m2", 99, some 50, "sys2", some "worker"⟩).round = 7 + 1
    ∧ (saveRoundState ⟨"openai", none, 7, none, "sys", none⟩
        ⟨"anthropic", some "m2", 99, some 50, "sys2", some "worker"⟩).provider = "anthropic"
    ∧ (saveRoundState ⟨"openai", none, 7, none, "sys", none⟩
        ⟨"anthropic", some "m2", 99, some 50, "sys2", some "worker"⟩).model = some "m2"
    ∧ (0 : Nat) ≤ 3
    ∧ (statesTrace ⟨"openai", none, 0, none, "sys", none⟩
        (fun _ => ⟨"anthropic", some "m2", 99, some 50, "sys2", some "worker"⟩) 0).round
      ≤ (statesTrace ⟨"openai", none, 0, none, "sys", none⟩
        (fun _ => ⟨"anthropic", some "m2", 99, some 50, "sys2", some "worker"⟩) 3).round := by
  refine ⟨(claim_C6_round_counter.1 _ _).1, (claim_C6_round_counter.1 _ _).2.1,
    (claim_C6_round_counter.1 _ _).2.2.1, by decide,
    claim_C6_round_counter.2.2 _ _ 0 3 (by decide)⟩



/-! ## C7 — synchronous bash output truncation -/

/-- C7: for a synchronous bash completion, output of at most 100 lines is
returned inline with the transient streaming file deleted and no saved output
file; 101 lines produce a truncated inline result (first 50 lines plus a
banner) and the full text is preserved in a saved output file; `formatResult`
saves a file exactly when truncation happens, and the saved content is the
full output. -/
theorem claim_C7_bash_inline :
    (∀ saveId stdoutData : String, stdoutData ≠ "" → (jsSplitLines stdoutData).length = 100 →
      bashSyncComplete saveId 0 stdoutData "" =
        { inlineResult := stdoutData, streamFileDeleted := true, savedFile := none })
    ∧ (∀ saveId stdoutData : String, (jsSplitLines stdoutData).length = 101 →
      bashSyncComplete saveId 0 stdoutData "" =
        { inlineResult := String.intercalate "\n" ((jsSplitLines stdoutData).take 50)
            ++ "\n\n[Output truncated: " ++ toString (jsSplitLines stdoutData).length
            ++ " lines total. Full output saved to "
            ++ ("/workspace/.tool-output/" ++ saveId ++ ".txt")
            ++ ". Use read_file with offset/limit to read more.]"
          streamFileDeleted := true
          savedFile := some ("/workspace/.tool-output/" ++ saveId ++ ".txt", stdoutData) })
    ∧ (∀ saveId output : String, (formatResult saveId output).2.isSome = true ↔
        (output ≠ "" ∧ 100 < (jsSplitLines output).length))
    ∧ (∀ (saveId output p full : String),
        (formatResult saveId output).2 = some (p, full) → full = output) := by
  refine ⟨?_, ?_, ?_, ?_⟩
  · intro saveId stdoutData hne h100
    unfold bashSyncComplete formatResult
    rw [if_pos rfl]
    simp only [if_neg hne, h100, MAX_INLINE_LINES]
    simp
  · intro saveId stdoutData h101
    have hne : stdoutData ≠ "" := by
      intro he
      subst he
      simp [jsSplitLines, splitNlAux] at h101
    unfold bashSyncComplete formatResult
    rw [if_pos rfl]
    simp only [if_neg hne, h101, MAX_INLINE_LINES]
    simp
  · intro saveId output
    unfold formatResult
    by_cases he : output = ""
    · simp [he]
    · rw [if_neg he]
      by_cases hl : (jsSplitLines output).length ≤ MAX_INLINE_LINES
      · rw [if_pos hl]
        simp only [MAX_INLINE_LINES] at hl
        simp [he, hl]
      · rw [if_neg hl]
        simp only [MAX_INLINE_LINES] at hl
        simp [he]
        omega
  · intro saveId output p full
    unfold formatResult
    by_cases he : output = ""
    · simp [he]
    · rw [if_neg he]
      by_cases hl : (jsSplitLines output).length ≤ MAX_INLINE_LINES
      · rw [if_pos hl]
        simp
      · rw [if_neg hl]
        simp only [Option.some.injEq, Prod.mk.injEq]
        intro h
        exact h.2.symm

/-- Witness for C7 at concrete 100-line and 101-line outputs. -/
theorem claim_C7_witness :
    (c7Out100 ≠ "" ∧ (jsSplitLines c7Out100).length = 100
      ∧ bashSyncComplete "j1" 0 c7Out100 "" =
          { inlineResult := c7Out100, streamFileDeleted := true, savedFile := none })
    ∧ ((jsSplitLines c7Out101).length = 101
      ∧ bashSyncComplete "j2" 0 c7Out101 "" =
          { inlineResult := String.intercalate "\n" ((jsSplitLines c7Out101).take 50)
              ++ "\n\n[Output truncated: " ++ toString (jsSplitLines c7Out101).length
              ++ " lines total. Full output saved to "
              ++ ("/workspace/.tool-output/" ++ "j2" ++ ".txt")
              ++ ". Use read_file with offset/limit to read more.]"
            streamFileDeleted := true
            savedFile := some ("/workspace/.tool-output/" ++ "j2" ++ ".txt", c7Out101) }) := by
  refine ⟨⟨by decide, by decide, ?_⟩, ⟨by decide, ?_⟩⟩
  · exact claim_C7_bash_inline.1 "j1" c7Out100 (by decide) (by decide)
  · exact claim_C7_bash_inline.2.1 "j2" c7Out101 (by decide)

/-! ## C9 — message queue -/

/-- C9: `push` returns a message with a fresh id (distinct from every pending
message id), appends it in FIFO position, and wakes a registered waiter;
`drain` removes and returns all pending messages in order leaving the queue
empty; `waitForMessage` resolves immediately when the queue is non-empty. -/
theorem claim_C9_queue :
    (∀ (s : QueueState) (content source : String) (now : Nat),
      (MessageQueue.push s content source now).1.id = s.nextId
      ∧ (MessageQueue.push s content source now).2.1.messages
          = s.messages ++ [(MessageQueue.push s content source now).1]
      ∧ (MessageQueue.push s content source now).2.2 = s.waiter
      ∧ (MessageQueue.push s content source now).2.1.waiter = false
      ∧ ((∀ q ∈ s.messages, q.id < s.nextId) →
          ∀ q ∈ s.messages, q.id ≠ (MessageQueue.push s content source now).1.id))
    ∧ (∀ s : QueueState,
      (MessageQueue.drain s).1 = s.messages
      ∧ (MessageQueue.drain s).2.messages = []
      ∧ MessageQueue.pending (MessageQueue.drain s).2 = 0)
    ∧ (∀ s : QueueState, s.messages ≠ [] → MessageQueue.waitForMessage s = (true, s)) := by
  refine ⟨?_, ?_, ?_⟩
  · intro s content source now
    refine ⟨rfl, rfl, rfl, rfl, ?_⟩
    intro hlt q hq
    have := hlt q hq
    show q.id ≠ s.nextId
    omega
  · intro s
    exact ⟨rfl, rfl, rfl⟩
  · intro s h
    unfold MessageQueue.waitForMessage
    rw [if_pos (by simpa using List.length_pos.mpr h)]

/-- Witness for C9 at a concrete one-message queue state. -/
theorem claim_C9_witness :
    ((∀ q ∈ ({ messages := [⟨0, "a", "src", 5⟩], waiter := true, nextId := 1 } : QueueState).messages,
        q.id < 1)
      ∧ (MessageQueue.push { messages := [⟨0, "a", "src", 5⟩], waiter := true, nextId := 1 } "b" "s2" 9).1.id = 1
      ∧ (MessageQueue.push { messages := [⟨0, "a", "src", 5⟩], waiter := true, nextId := 1 } "b" "s2" 9).2.2 = true
      ∧ (∀ q ∈ ({ messages := [⟨0, "a", "src", 5⟩], waiter := true, nextId := 1 } : QueueState).messages,
          q.id ≠ (MessageQueue.push { messages := [⟨0, "a", "src", 5⟩], waiter := true, nextId := 1 } "b" "s2" 9).1.id))
    ∧ ((MessageQueue.drain { messages := [⟨0, "a", "src", 5⟩], waiter := false, nextId := 1 }).1
        = [⟨0, "a", "src", 5⟩]
      ∧ MessageQueue.pending (MessageQueue.drain { messages := [⟨0, "a", "src", 5⟩], waiter := false, nextId := 1 }).2 = 0)
    ∧ (([⟨0, "a", "src", 5⟩] : List QueueMessage) ≠ []
      ∧ MessageQueue.waitForMessage { messages := [⟨0, "a", "src", 5⟩], waiter := false, nextId := 1 }
        = (true, { messages := [⟨0, "a", "src", 5⟩], waiter := false, nextId := 1 })) := by
  refine ⟨⟨by decide, (claim_C9_queue.1 _ "b" "s2" 9).1, (claim_C9_queue.1 _ "b" "s2" 9).2.2.1,
    (claim_C9_queue.1 _ "b" "s2" 9).2.2.2.2 (by decide)⟩,
    ⟨(claim_C9_queue.2.1 _).1, (claim_C9_queue.2.1 _).2.2⟩,
    ⟨by decide, claim_C9_queue.2.2 _ (by decide)⟩⟩

/-! ## C2 — executor nudge logic (code bug) -/

/-- C2: evaluation of the executor round tail at the failing inputs.  After a
third consecutive turn without tool calls (`noToolRetries = 2` entering the
tail) the executor does NOT enter the wait state (`entersWait = false`,
contradicting the code's own "entering wait state" log and the spec); and on
a nudge turn the nudge message is appended only to the in-memory context
after `saveContext`, so the persisted context — which the next iteration
reloads for the next provider call — does not contain it. -/
theorem claim_C2_failing_round :
    ((roundTail false false 2 []).entersWait = false)
    ∧ ((roundTail false false 2 []).noToolRetries = 0)
    ∧ ((roundTail false false 2 []).memContext = [])
    ∧ ((roundTail false false 0 []).memContext = [nudgeMessage])
    ∧ ((roundTail false false 0 []).savedContext = [])
    ∧ ((roundTail false false 0 []).nextLoadedContext = [])
    ∧ ((roundTail false false 1 []).memContext = [nudgeMessage])
    ∧ ((roundTail false false 1 []).noToolRetries = 2) :=
  ⟨rfl, rfl, rfl, rfl, rfl, rfl, rfl, rfl⟩


/-! ## Lemmas about tool-pair repair -/


theorem truthy_dest (m : Message) (tid : String) (h : truthyToolId m = some tid) :
    m.role = Role.tool ∧ m.toolCallId = some tid ∧ tid ≠ "" := by
  unfold truthyToolId at h
  split at h
  · rename_i s hr hc
    by_cases hs : s = "" <;> simp_all
  · simp_all

theorem truthy_intro (m : Message) (tid : String) (hr : m.role = Role.tool)
    (hc : m.toolCallId = some tid) (hne : tid ≠ "") : truthyToolId m = some tid := by
  unfold truthyToolId
  rw [hr, hc]
  show (if tid = "" then none else some tid) = some tid
  rw [if_neg hne]

theorem truthy_none_of_assistant (m : Message) (tcs : List ToolCall)
    (h : assistantToolCalls m = some tcs) : truthyToolId m = none := by
  unfold assistantToolCalls at h
  unfold truthyToolId
  split at h
  · rename_i hr hc
    rw [hr]
  · simp_all

theorem msgCallIds_of_truthy (m : Message) (tid : String) (h : truthyToolId m = some tid) :
    msgCallIds m = [] := by
  have hr := (truthy_dest m tid h).1
  unfold msgCallIds assistantToolCalls
  rw [hr]

theorem msgCallIds_of_none (m : Message) (h : assistantToolCalls m = none) :
    msgCallIds m = [] := by
  unfold msgCallIds
  rw [h]

theorem msgCallIds_of_some (m : Message) (tcs : List ToolCall)
    (h : assistantToolCalls m = some tcs) :
    msgCallIds m = tcs.map (fun tc => tc.id) := by
  unfold msgCallIds
  rw [h]

theorem syntheticResult_truthy (tid : String) (h : tid ≠ "") :
    truthyToolId (syntheticResult tid) = some tid := by
  unfold truthyToolId syntheticResult
  show (if tid = "" then none else some tid) = some tid
  rw [if_neg h]

theorem syntheticResult_calls (tid : String) : msgCallIds (syntheticResult tid) = [] := rfl

theorem syntheticResult_assistant (tid : String) :
    assistantToolCalls (syntheticResult tid) = none := rfl

theorem syntheticResult_role (tid : String) : (syntheticResult tid).role = Role.tool := rfl

theorem syntheticResult_id (tid : String) : (syntheticResult tid).toolCallId = some tid := rfl

theorem assistantCallIds_cons (m : Message) (rest : List Message) :
    assistantCallIds (m :: rest) = msgCallIds m ++ assistantCallIds rest := rfl

theorem assistantCallIds_append (l1 l2 : List Message) :
    assistantCallIds (l1 ++ l2) = assistantCallIds l1 ++ assistantCallIds l2 := by
  induction l1 with
  | nil => rfl
  | cons m rest ih =>
    show msgCallIds m ++ assistantCallIds (rest ++ l2) = _
    rw [ih]
    show _ = (msgCallIds m ++ assistantCallIds rest) ++ _
    rw [List.append_assoc]

/-! Case equations for `dropPass` and `synthPass`. -/

theorem dropPass_eq_dup (callIds : List String) (m : Message) (rest : List Message)
    (seen : List String) (tid : String) (ht : truthyToolId m = some tid)
    (h1 : tid ∈ callIds) (h2 : tid ∈ seen) :
    dropPass callIds (m :: rest) seen = dropPass callIds rest seen := by
  conv_lhs => unfold dropPass
  split
  · rename_i tid' ht'
    rw [ht] at ht'
    cases ht'
    rw [if_pos h1, if_pos h2]
  · rename_i ht'
    rw [ht] at ht'
    cases ht'

theorem dropPass_eq_keep (callIds : List String) (m : Message) (rest : List Message)
    (seen : List String) (tid : String) (ht : truthyToolId m = some tid)
    (h1 : tid ∈ callIds) (h2 : tid ∉ seen) :
    dropPass callIds (m :: rest) seen =
      (m :: (dropPass callIds rest (tid :: seen)).1, (dropPass callIds rest (tid :: seen)).2) := by
  conv_lhs => unfold dropPass
  split
  · rename_i tid' ht'
    rw [ht] at ht'
    cases ht'
    rw [if_pos h1, if_neg h2]
  · rename_i ht'
    rw [ht] at ht'
    cases ht'

theorem dropPass_eq_orphan (callIds : List String) (m : Message) (rest : List Message)
    (seen : List String) (tid : String) (ht : truthyToolId m = some tid)
    (h1 : tid ∉ callIds) :
    dropPass callIds (m :: rest) seen = dropPass callIds rest seen := by
  conv_lhs => unfold dropPass
  split
  · rename_i tid' ht'
    rw [ht] at ht'
    cases ht'
    rw [if_neg h1]
  · rename_i ht'
    rw [ht] at ht'
    cases ht'

theorem dropPass_eq_pass (callIds : List String) (m : Message) (rest : List Message)
    (seen : List String) (ht : truthyToolId m = none) :
    dropPass callIds (m :: rest) seen =
      (m :: (dropPass callIds rest seen).1, (dropPass callIds rest seen).2) := by
  conv_lhs => unfold dropPass
  split
  · rename_i tid' ht'
    rw [ht] at ht'
    cases ht'
  · rfl

theorem synthFor_eq_skip (tc : ToolCall) (rest : List ToolCall) (seen : List String)
    (h : tc.id ∈ seen) :
    synthFor (tc :: rest) seen = synthFor rest seen := by
  conv_lhs => unfold synthFor
  rw [if_pos h]

theorem synthFor_eq_ins (tc : ToolCall) (rest : List ToolCall) (seen : List String)
    (h : tc.id ∉ seen) :
    synthFor (tc :: rest) seen =
      (syntheticResult tc.id :: (synthFor rest (tc.id :: seen)).1,
        (synthFor rest (tc.id :: seen)).2) := by
  conv_lhs => unfold synthFor
  rw [if_neg h]

theorem synthPass_eq_assistant (m : Message) (rest : List Message) (seen : List String)
    (tcs : List ToolCall) (h : assistantToolCalls m = some tcs) :
    synthPass (m :: rest) seen =
      (m :: (synthFor tcs seen).1 ++ (synthPass rest (synthFor tcs seen).2).1,
        (synthPass rest (synthFor tcs seen).2).2) := by
  conv_lhs => unfold synthPass
  split
  · rename_i tcs' h'
    rw [h] at h'
    cases h'
    rfl
  · rename_i h'
    rw [h] at h'
    cases h'

theorem synthPass_eq_other (m : Message) (rest : List Message) (seen : List String)
    (h : assistantToolCalls m = none) :
    synthPass (m :: rest) seen =
      (m :: (synthPass rest seen).1, (synthPass rest seen).2) := by
  conv_lhs => unfold synthPass
  split
  · rename_i tcs' h'
    rw [h] at h'
    cases h'
  · rfl

theorem dropPass_calls (callIds : List String) :
    ∀ (l : List Message) (seen : List String),
      assistantCallIds (dropPass callIds l seen).1 = assistantCallIds l
  | [], _ => rfl
  | m :: rest, seen => by
    cases ht : truthyToolId m with
    | some tid =>
      have hm : msgCallIds m = [] := msgCallIds_of_truthy m tid ht
      by_cases h1 : tid ∈ callIds
      · by_cases h2 : tid ∈ seen
        · rw [dropPass_eq_dup callIds m rest seen tid ht h1 h2, assistantCallIds_cons, hm,
            dropPass_calls callIds rest seen, List.nil_append]
        · rw [dropPass_eq_keep callIds m rest seen tid ht h1 h2]
          show assistantCallIds (m :: (dropPass callIds rest (tid :: seen)).1) = _
          rw [assistantCallIds_cons, hm, dropPass_calls callIds rest (tid :: seen),
            assistantCallIds_cons, hm]
      · rw [dropPass_eq_orphan callIds m rest seen tid ht h1, assistantCallIds_cons, hm,
          dropPass_calls callIds rest seen, List.nil_append]
    | none =>
      rw [dropPass_eq_pass callIds m rest seen ht]
      show assistantCallIds (m :: (dropPass callIds rest seen).1) = _
      rw [assistantCallIds_cons, dropPass_calls callIds rest seen, assistantCallIds_cons]

theorem dropPass_sub (callIds : List String) :
    ∀ (l : List Message) (seen : List String) (m : Message),
      m ∈ (dropPass callIds l seen).1 → m ∈ l
  | [], _, m => by
    intro h
    simp [dropPass] at h
  | m0 :: rest, seen, m => by
    cases ht : truthyToolId m0 with
    | some tid =>
      by_cases h1 : tid ∈ callIds
      · by_cases h2 : tid ∈ seen
        · rw [dropPass_eq_dup callIds m0 rest seen tid ht h1 h2]
          intro h
          exact List.mem_cons_of_mem _ (dropPass_sub callIds rest seen m h)
        · rw [dropPass_eq_keep callIds m0 rest seen tid ht h1 h2]
          intro h
          rcases List.mem_cons.mp h with h | h
          · exact h ▸ List.mem_cons_self _ _
          · exact List.mem_cons_of_mem _ (dropPass_sub callIds rest (tid :: seen) m h)
      · rw [dropPass_eq_orphan callIds m0 rest seen tid ht h1]
        intro h
        exact List.mem_cons_of_mem _ (dropPass_sub callIds rest seen m h)
    | none =>
      rw [dropPass_eq_pass callIds m0 rest seen ht]
      intro h
      rcases List.mem_cons.mp h with h | h
      · exact h ▸ List.mem_cons_self _ _
      · exact List.mem_cons_of_mem _ (dropPass_sub callIds rest seen m h)

theorem dropPass_kept (callIds : List String) :
    ∀ (l : List Message) (seen : List String) (m : Message) (tid : String),
      m ∈ (dropPass callIds l seen).1 → truthyToolId m = some tid → tid ∈ callIds
  | [], _, m, tid => by
    intro h
    simp [dropPass] at h
  | m0 :: rest, seen, m, tid => by
    cases ht : truthyToolId m0 with
    | some tid0 =>
      by_cases h1 : tid0 ∈ callIds
      · by_cases h2 : tid0 ∈ seen
        · rw [dropPass_eq_dup callIds m0 rest seen tid0 ht h1 h2]
          exact dropPass_kept callIds rest seen m tid
        · rw [dropPass_eq_keep callIds m0 rest seen tid0 ht h1 h2]
          intro h hm
          rcases List.mem_cons.mp h with h | h
          · subst h
            rw [hm] at ht
            cases ht
            exact h1
          · exact dropPass_kept callIds rest (tid0 :: seen) m tid h hm
      · rw [dropPass_eq_orphan callIds m0 rest seen tid0 ht h1]
        exact dropPass_kept callIds rest seen m tid
    | none =>
      rw [dropPass_eq_pass callIds m0 rest seen ht]
      intro h hm
      rcases List.mem_cons.mp h with h | h
      · subst h
        rw [hm] at ht
        cases ht
      · exact dropPass_kept callIds rest seen m tid h hm

theorem dropPass_seen (callIds : List String) :
    ∀ (l : List Message) (seen : List String) (tid : String),
      tid ∈ (dropPass callIds l seen).2
        ↔ tid ∈ seen ∨ ∃ m ∈ (dropPass callIds l seen).1, truthyToolId m = some tid
  | [], seen, tid => by simp [dropPass]
  | m0 :: rest, seen, tid => by
    cases ht : truthyToolId m0 with
    | some tid0 =>
      by_cases h1 : tid0 ∈ callIds
      · by_cases h2 : tid0 ∈ seen
        · rw [dropPass_eq_dup callIds m0 rest seen tid0 ht h1 h2]
          exact dropPass_seen callIds rest seen tid
        · rw [dropPass_eq_keep callIds m0 rest seen tid0 ht h1 h2]
          show tid ∈ (dropPass callIds rest (tid0 :: seen)).2 ↔ _ ∨
            ∃ m ∈ m0 :: (dropPass callIds rest (tid0 :: seen)).1, truthyToolId m = some tid
          rw [dropPass_seen callIds rest (tid0 :: seen) tid]
          constructor
          · intro h
            rcases h with h | ⟨m, hm, hmt⟩
            · rcases List.mem_cons.mp h with h | h
              · subst h
                exact Or.inr ⟨m0, List.mem_cons_self _ _, ht⟩
              · exact Or.inl h
            · exact Or.inr ⟨m, List.mem_cons_of_mem _ hm, hmt⟩
          · intro h
            rcases h with h | ⟨m, hm, hmt⟩
            · exact Or.inl (List.mem_cons_of_mem _ h)
            · rcases List.mem_cons.mp hm with hm | hm
              · subst hm
                rw [hmt] at ht
                cases ht
                exact Or.inl (List.mem_cons_self _ _)
              · exact Or.inr ⟨m, hm, hmt⟩
      · rw [dropPass_eq_orphan callIds m0 rest seen tid0 ht h1]
        exact dropPass_seen callIds rest seen tid
    | none =>
      rw [dropPass_eq_pass callIds m0 rest seen ht]
      show tid ∈ (dropPass callIds rest seen).2 ↔ _ ∨
        ∃ m ∈ m0 :: (dropPass callIds rest seen).1, truthyToolId m = some tid
      rw [dropPass_seen callIds rest seen tid]
      constructor
      · intro h
        rcases h with h | ⟨m, hm, hmt⟩
        · exact Or.inl h
        · exact Or.inr ⟨m, List.mem_cons_of_mem _ hm, hmt⟩
      · intro h
        rcases h with h | ⟨m, hm, hmt⟩
        · exact Or.inl h
        · rcases List.mem_cons.mp hm with hm | hm
          · subst hm
            rw [hmt] at ht
            cases ht
          · exact Or.inr ⟨m, hm, hmt⟩

theorem dropPass_nodup (callIds : List String) :
    ∀ (l : List Message) (seen : List String),
      ((dropPass callIds l seen).1.filterMap truthyToolId).Nodup
      ∧ ∀ tid ∈ (dropPass callIds l seen).1.filterMap truthyToolId, tid ∉ seen
  | [], seen => by simp [dropPass]
  | m0 :: rest, seen => by
    cases ht : truthyToolId m0 with
    | some tid0 =>
      by_cases h1 : tid0 ∈ callIds
      · by_cases h2 : tid0 ∈ seen
        · rw [dropPass_eq_dup callIds m0 rest seen tid0 ht h1 h2]
          exact dropPass_nodup callIds rest seen
        · rw [dropPass_eq_keep callIds m0 rest seen tid0 ht h1 h2]
          have ih := dropPass_nodup callIds rest (tid0 :: seen)
          constructor
          · show (List.filterMap truthyToolId (m0 :: _)).Nodup
            simp only [List.filterMap_cons, ht]
            refine List.Nodup.cons ?_ ih.1
            intro hmem
            exact (ih.2 tid0 hmem) (List.mem_cons_self _ _)
          · intro tid hmem
            show tid ∉ seen
            simp only [List.filterMap_cons, ht] at hmem
            rcases List.mem_cons.mp hmem with h | h
            · subst h
              exact h2
            · intro hs
              exact (ih.2 tid h) (List.mem_cons_of_mem _ hs)
      · rw [dropPass_eq_orphan callIds m0 rest seen tid0 ht h1]
        exact dropPass_nodup callIds rest seen
    | none =>
      rw [dropPass_eq_pass callIds m0 rest seen ht]
      have ih := dropPass_nodup callIds rest seen
      constructor
      · show (List.filterMap truthyToolId (m0 :: _)).Nodup
        simp only [List.filterMap_cons, ht]
        exact ih.1
      · intro tid hmem
        show tid ∉ seen
        simp only [List.filterMap_cons, ht] at hmem
        exact ih.2 tid hmem

theorem dropPass_id (callIds : List String) :
    ∀ (l : List Message) (seen : List String),
      (l.filterMap truthyToolId).Nodup →
      (∀ tid ∈ l.filterMap truthyToolId, tid ∈ callIds ∧ tid ∉ seen) →
      (dropPass callIds l seen).1 = l
  | [], seen => by
    intro _ _
    rfl
  | m0 :: rest, seen => by
    intro hnd hmem
    cases ht : truthyToolId m0 with
    | some tid0 =>
      have hm0 : tid0 ∈ List.filterMap truthyToolId (m0 :: rest) := by
        simp only [List.filterMap_cons, ht]
        exact List.mem_cons_self _ _
      have h1 := (hmem tid0 hm0).1
      have h2 := (hmem tid0 hm0).2
      rw [dropPass_eq_keep callIds m0 rest seen tid0 ht h1 h2]
      simp only [List.filterMap_cons, ht] at hnd hmem
      have hnd' := List.Nodup.of_cons hnd
      have htid0 : tid0 ∉ List.filterMap truthyToolId rest := (List.nodup_cons.mp hnd).1
      rw [dropPass_id callIds rest (tid0 :: seen) hnd' ?_]
      intro tid hmemt
      refine ⟨(hmem tid (List.mem_cons_of_mem _ hmemt)).1, ?_⟩
      intro hs
      rcases List.mem_cons.mp hs with hs | hs
      · subst hs
        exact htid0 hmemt
      · exact (hmem tid (List.mem_cons_of_mem _ hmemt)).2 hs
    | none =>
      rw [dropPass_eq_pass callIds m0 rest seen ht]
      simp only [List.filterMap_cons, ht] at hnd hmem
      rw [dropPass_id callIds rest seen hnd hmem]

theorem synthFor_seen :
    ∀ (tcs : List ToolCall) (seen : List String) (tid : String),
      tid ∈ (synthFor tcs seen).2 ↔ tid ∈ seen ∨ tid ∈ tcs.map (fun tc => tc.id)
  | [], seen, tid => by simp [synthFor]
  | tc :: rest, seen, tid => by
    by_cases h : tc.id ∈ seen
    · rw [synthFor_eq_skip tc rest seen h, synthFor_seen rest seen tid]
      simp only [List.map_cons, List.mem_cons]
      constructor
      · rintro (hs | hr)
        · exact Or.inl hs
        · exact Or.inr (Or.inr hr)
      · rintro (hs | heq | hr)
        · exact Or.inl hs
        · subst heq
          exact Or.inl h
        · exact Or.inr hr
    · rw [synthFor_eq_ins tc rest seen h]
      show tid ∈ (synthFor rest (tc.id :: seen)).2 ↔ _
      rw [synthFor_seen rest (tc.id :: seen) tid]
      simp only [List.map_cons, List.mem_cons]
      tauto

theorem synthFor_msgs :
    ∀ (tcs : List ToolCall) (seen : List String) (m : Message),
      m ∈ (synthFor tcs seen).1 →
        ∃ tid, m = syntheticResult tid ∧ tid ∈ tcs.map (fun tc => tc.id) ∧ tid ∉ seen
  | [], seen, m => by simp [synthFor]
  | tc :: rest, seen, m => by
    by_cases h : tc.id ∈ seen
    · rw [synthFor_eq_skip tc rest seen h]
      intro hm
      rcases synthFor_msgs rest seen m hm with ⟨tid, he, hmem, hs⟩
      exact ⟨tid, he, List.mem_cons_of_mem _ hmem, hs⟩
    · rw [synthFor_eq_ins tc rest seen h]
      intro hm
      rcases List.mem_cons.mp hm with hm | hm
      · exact ⟨tc.id, hm, List.mem_cons_self _ _, h⟩
      · rcases synthFor_msgs rest (tc.id :: seen) m hm with ⟨tid, he, hmem, hs⟩
        refine ⟨tid, he, List.mem_cons_of_mem _ hmem, ?_⟩
        intro hs'
        exact hs (List.mem_cons_of_mem _ hs')

theorem synthFor_skip_all :
    ∀ (tcs : List ToolCall) (seen : List String),
      (∀ tc ∈ tcs, tc.id ∈ seen) → synthFor tcs seen = ([], seen)
  | [], seen => by
    intro _
    rfl
  | tc :: rest, seen => by
    intro h
    rw [synthFor_eq_skip tc rest seen (h tc (List.mem_cons_self _ _))]
    exact synthFor_skip_all rest seen (fun tc' h' => h tc' (List.mem_cons_of_mem _ h'))

theorem synthFor_new :
    ∀ (tcs : List ToolCall) (seen : List String) (tid : String),
      tid ∈ (synthFor tcs seen).2 → tid ∉ seen → syntheticResult tid ∈ (synthFor tcs seen).1
  | [], seen, tid => by
    intro h hs
    exact absurd h hs
  | tc :: rest, seen, tid => by
    by_cases h : tc.id ∈ seen
    · rw [synthFor_eq_skip tc rest seen h]
      exact synthFor_new rest seen tid
    · rw [synthFor_eq_ins tc rest seen h]
      intro hmem hs
      show syntheticResult tid ∈ syntheticResult tc.id :: (synthFor rest (tc.id :: seen)).1
      by_cases he : tid = tc.id
      · subst he
        exact List.mem_cons_self _ _
      · refine List.mem_cons_of_mem _ (synthFor_new rest (tc.id :: seen) tid hmem ?_)
        intro h'
        rcases List.mem_cons.mp h' with h' | h'
        · exact he h'
        · exact hs h'

theorem synthFor_nodup :
    ∀ (tcs : List ToolCall) (seen : List String),
      ((synthFor tcs seen).1.filterMap truthyToolId).Nodup
      ∧ (∀ tid ∈ (synthFor tcs seen).1.filterMap truthyToolId,
          tid ∉ seen ∧ tid ∈ (synthFor tcs seen).2)
  | [], seen => by simp [synthFor]
  | tc :: rest, seen => by
    by_cases h : tc.id ∈ seen
    · rw [synthFor_eq_skip tc rest seen h]
      exact synthFor_nodup rest seen
    · rw [synthFor_eq_ins tc rest seen h]
      have ih := synthFor_nodup rest (tc.id :: seen)
      by_cases hid : tc.id = ""
      · have hty0 : truthyToolId (syntheticResult tc.id) = none := by
          rw [hid]
          decide
        constructor
        · show (List.filterMap truthyToolId (syntheticResult tc.id :: _)).Nodup
          simp only [List.filterMap_cons, hty0]
          exact ih.1
        · intro tid hmem
          simp only [List.filterMap_cons, hty0] at hmem
          exact ⟨fun hs => (ih.2 tid hmem).1 (List.mem_cons_of_mem _ hs), (ih.2 tid hmem).2⟩
      · have hty : truthyToolId (syntheticResult tc.id) = some tc.id := syntheticResult_truthy tc.id hid
        constructor
        · show (List.filterMap truthyToolId (syntheticResult tc.id :: _)).Nodup
          simp only [List.filterMap_cons, hty]
          refine List.Nodup.cons ?_ ih.1
          intro hmem
          exact (ih.2 tc.id hmem).1 (List.mem_cons_self _ _)
        · intro tid hmem
          simp only [List.filterMap_cons, hty] at hmem
          rcases List.mem_cons.mp hmem with hm | hm
          · constructor
            · rw [hm]
              exact h
            · show tid ∈ (synthFor rest (tc.id :: seen)).2
              rw [hm, synthFor_seen rest (tc.id :: seen) tc.id]
              exact Or.inl (List.mem_cons_self _ _)
          · exact ⟨fun hs => (ih.2 tid hm).1 (List.mem_cons_of_mem _ hs), (ih.2 tid hm).2⟩

theorem assistantCallIds_nil_of :
    ∀ l : List Message, (∀ m ∈ l, msgCallIds m = []) → assistantCallIds l = []
  | [] => by
    intro _
    rfl
  | m :: rest => by
    intro h
    rw [assistantCallIds_cons, h m (List.mem_cons_self _ _),
      assistantCallIds_nil_of rest (fun m' h' => h m' (List.mem_cons_of_mem _ h')), List.nil_append]

theorem synthFor_calls (tcs : List ToolCall) (seen : List String) :
    assistantCallIds (synthFor tcs seen).1 = [] := by
  refine assistantCallIds_nil_of _ (fun m hm => ?_)
  rcases synthFor_msgs tcs seen m hm with ⟨tid, he, _, _⟩
  rw [he]
  rfl

theorem synthPass_sub :
    ∀ (l : List Message) (seen : List String) (m : Message),
      m ∈ l → m ∈ (synthPass l seen).1
  | [], seen, m => by
    intro h
    cases h
  | m0 :: rest, seen, m => by
    intro h
    cases hc : assistantToolCalls m0 with
    | some tcs =>
      rw [synthPass_eq_assistant m0 rest seen tcs hc]
      rcases List.mem_cons.mp h with h | h
      · exact h ▸ List.mem_cons_self _ _
      · exact List.mem_cons_of_mem _
          (List.mem_append_right _ (synthPass_sub rest _ m h))
    | none =>
      rw [synthPass_eq_other m0 rest seen hc]
      rcases List.mem_cons.mp h with h | h
      · exact h ▸ List.mem_cons_self _ _
      · exact List.mem_cons_of_mem _ (synthPass_sub rest seen m h)

theorem synthPass_msgs :
    ∀ (l : List Message) (seen : List String) (m : Message),
      m ∈ (synthPass l seen).1 →
        m ∈ l ∨ ∃ tid, m = syntheticResult tid ∧ tid ∈ assistantCallIds l
  | [], seen, m => by
    intro h
    cases h
  | m0 :: rest, seen, m => by
    cases hc : assistantToolCalls m0 with
    | some tcs =>
      rw [synthPass_eq_assistant m0 rest seen tcs hc]
      intro h
      rcases List.mem_cons.mp h with h | h
      · exact Or.inl (h ▸ List.mem_cons_self _ _)
      · rcases List.mem_append.mp h with h | h
        · rcases synthFor_msgs tcs seen m h with ⟨tid, he, hmem, _⟩
          refine Or.inr ⟨tid, he, ?_⟩
          rw [assistantCallIds_cons, msgCallIds_of_some m0 tcs hc]
          exact List.mem_append_left _ hmem
        · rcases synthPass_msgs rest _ m h with h | ⟨tid, he, hmem⟩
          · exact Or.inl (List.mem_cons_of_mem _ h)
          · refine Or.inr ⟨tid, he, ?_⟩
            rw [assistantCallIds_cons]
            exact List.mem_append_right _ hmem
    | none =>
      rw [synthPass_eq_other m0 rest seen hc]
      intro h
      rcases List.mem_cons.mp h with h | h
      · exact Or.inl (h ▸ List.mem_cons_self _ _)
      · rcases synthPass_msgs rest seen m h with h | ⟨tid, he, hmem⟩
        · exact Or.inl (List.mem_cons_of_mem _ h)
        · refine Or.inr ⟨tid, he, ?_⟩
          rw [assistantCallIds_cons]
          exact List.mem_append_right _ hmem

theorem synthPass_calls :
    ∀ (l : List Message) (seen : List String),
      assistantCallIds (synthPass l seen).1 = assistantCallIds l
  | [], seen => rfl
  | m0 :: rest, seen => by
    cases hc : assistantToolCalls m0 with
    | some tcs =>
      rw [synthPass_eq_assistant m0 rest seen tcs hc]
      show assistantCallIds (m0 :: ((synthFor tcs seen).1 ++ (synthPass rest (synthFor tcs seen).2).1)) = _
      rw [assistantCallIds_cons, assistantCallIds_append, synthFor_calls,
        synthPass_calls rest _, assistantCallIds_cons, List.nil_append]
    | none =>
      rw [synthPass_eq_other m0 rest seen hc]
      show assistantCallIds (m0 :: (synthPass rest seen).1) = _
      rw [assistantCallIds_cons, synthPass_calls rest seen, assistantCallIds_cons]

theorem synthPass_seen :
    ∀ (l : List Message) (seen : List String) (tid : String),
      tid ∈ (synthPass l seen).2 ↔ tid ∈ seen ∨ tid ∈ assistantCallIds l
  | [], seen, tid => by simp [synthPass, assistantCallIds]
  | m0 :: rest, seen, tid => by
    cases hc : assistantToolCalls m0 with
    | some tcs =>
      rw [synthPass_eq_assistant m0 rest seen tcs hc]
      show tid ∈ (synthPass rest (synthFor tcs seen).2).2 ↔ _
      rw [synthPass_seen rest _ tid, assistantCallIds_cons, msgCallIds_of_some m0 tcs hc]
      have h1 := synthFor_seen tcs seen tid
      simp only [List.mem_append]
      tauto
    | none =>
      rw [synthPass_eq_other m0 rest seen hc]
      show tid ∈ (synthPass rest seen).2 ↔ _
      rw [synthPass_seen rest seen tid, assistantCallIds_cons, msgCallIds_of_none m0 hc,
        List.nil_append]

theorem synthPass_id :
    ∀ (l : List Message) (seen : List String),
      (∀ tid ∈ assistantCallIds l, tid ∈ seen) → (synthPass l seen).1 = l
  | [], seen => by
    intro _
    rfl
  | m0 :: rest, seen => by
    intro h
    cases hc : assistantToolCalls m0 with
    | some tcs =>
      rw [synthPass_eq_assistant m0 rest seen tcs hc]
      have hall : ∀ tc ∈ tcs, tc.id ∈ seen := by
        intro tc htc
        refine h tc.id ?_
        rw [assistantCallIds_cons, msgCallIds_of_some m0 tcs hc]
        exact List.mem_append_left _ (List.mem_map_of_mem _ htc)
      rw [synthFor_skip_all tcs seen hall]
      show m0 :: ([] ++ (synthPass rest seen).1) = m0 :: rest
      rw [List.nil_append, synthPass_id rest seen (fun tid htid => h tid (by
        rw [assistantCallIds_cons]
        exact List.mem_append_right _ htid))]
    | none =>
      rw [synthPass_eq_other m0 rest seen hc]
      show m0 :: (synthPass rest seen).1 = m0 :: rest
      rw [synthPass_id rest seen (fun tid htid => h tid (by
        rw [assistantCallIds_cons]
        exact List.mem_append_right _ htid))]

theorem synthPass_new :
    ∀ (l : List Message) (seen : List String) (tid : String),
      tid ∈ (synthPass l seen).2 → tid ∉ seen →
        ∃ m ∈ (synthPass l seen).1, m = syntheticResult tid
  | [], seen, tid => by
    intro h hs
    exact absurd h hs
  | m0 :: rest, seen, tid => by
    cases hc : assistantToolCalls m0 with
    | some tcs =>
      rw [synthPass_eq_assistant m0 rest seen tcs hc]
      intro h hs
      by_cases hq : tid ∈ (synthFor tcs seen).2
      · have hins := synthFor_new tcs seen tid hq hs
        exact ⟨syntheticResult tid,
          List.mem_cons_of_mem _ (List.mem_append_left _ hins), rfl⟩
      · rcases synthPass_new rest _ tid h hq with ⟨m, hm, he⟩
        exact ⟨m, List.mem_cons_of_mem _ (List.mem_append_right _ hm), he⟩
    | none =>
      rw [synthPass_eq_other m0 rest seen hc]
      intro h hs
      rcases synthPass_new rest seen tid h hs with ⟨m, hm, he⟩
      exact ⟨m, List.mem_cons_of_mem _ hm, he⟩

theorem synthPass_nodup :
    ∀ (l : List Message) (seen : List String),
      (∀ tid ∈ l.filterMap truthyToolId, tid ∈ seen) →
      (l.filterMap truthyToolId).Nodup →
      ((synthPass l seen).1.filterMap truthyToolId).Nodup
      ∧ (∀ tid ∈ (synthPass l seen).1.filterMap truthyToolId,
          tid ∈ l.filterMap truthyToolId ∨ tid ∉ seen)
  | [], seen => by
    intro _ _
    simp [synthPass]
  | m0 :: rest, seen => by
    intro hseen hnd
    cases hc : assistantToolCalls m0 with
    | some tcs =>
      have ht0 : truthyToolId m0 = none := truthy_none_of_assistant m0 tcs hc
      simp only [List.filterMap_cons, ht0] at hseen hnd
      rw [synthPass_eq_assistant m0 rest seen tcs hc]
      have hqn := synthFor_nodup tcs seen
      have hsub : ∀ tid ∈ rest.filterMap truthyToolId, tid ∈ (synthFor tcs seen).2 := by
        intro tid htid
        rw [synthFor_seen tcs seen tid]
        exact Or.inl (hseen tid htid)
      have ihr := synthPass_nodup rest (synthFor tcs seen).2 hsub hnd
      have hdisj : ∀ tid ∈ (synthFor tcs seen).1.filterMap truthyToolId,
          tid ∉ (synthPass rest (synthFor tcs seen).2).1.filterMap truthyToolId := by
        intro tid hq hr
        rcases ihr.2 tid hr with hri | hri
        · exact (hqn.2 tid hq).1 (hseen tid hri)
        · exact hri (hqn.2 tid hq).2
      constructor
      · show (List.filterMap truthyToolId (m0 :: _)).Nodup
        simp only [List.filterMap_cons, ht0, List.append_eq, List.filterMap_append]
        exact List.Nodup.append hqn.1 ihr.1 hdisj
      · intro tid hmem
        simp only [List.filterMap_cons, ht0, List.append_eq, List.filterMap_append,
          List.mem_append] at hmem
        rcases hmem with hmem | hmem
        · exact Or.inr (hqn.2 tid hmem).1
        · rcases ihr.2 tid hmem with hri | hri
          · refine Or.inl ?_
            simp only [List.filterMap_cons, ht0]
            exact hri
          · refine Or.inr ?_
            intro hs
            refine hri ?_
            rw [synthFor_seen tcs seen tid]
            exact Or.inl hs
    | none =>
      rw [synthPass_eq_other m0 rest seen hc]
      cases ht0 : truthyToolId m0 with
      | some tid0 =>
        simp only [List.filterMap_cons, ht0] at hseen hnd
        have hs0 : tid0 ∈ seen := hseen tid0 (List.mem_cons_self _ _)
        have hrest : ∀ tid ∈ rest.filterMap truthyToolId, tid ∈ seen := by
          intro tid htid
          exact hseen tid (List.mem_cons_of_mem _ htid)
        have hnd0 : tid0 ∉ rest.filterMap truthyToolId := (List.nodup_cons.mp hnd).1
        have ihr := synthPass_nodup rest seen hrest (List.Nodup.of_cons hnd)
        constructor
        · show (List.filterMap truthyToolId (m0 :: _)).Nodup
          simp only [List.filterMap_cons, ht0]
          refine List.Nodup.cons ?_ ihr.1
          intro hmem
          rcases ihr.2 tid0 hmem with hri | hri
          · exact hnd0 hri
          · exact hri hs0
        · intro tid hmem
          simp only [List.filterMap_cons, ht0] at hmem
          rcases List.mem_cons.mp hmem with hm | hm
          · refine Or.inl ?_
            simp only [List.filterMap_cons, ht0]
            exact hm ▸ List.mem_cons_self _ _
          · rcases ihr.2 tid hm with hri | hri
            · refine Or.inl ?_
              simp only [List.filterMap_cons, ht0]
              exact List.mem_cons_of_mem _ hri
            · exact Or.inr hri
      | none =>
        simp only [List.filterMap_cons, ht0] at hseen hnd
        have ihr := synthPass_nodup rest seen hseen hnd
        constructor
        · show (List.filterMap truthyToolId (m0 :: _)).Nodup
          simp only [List.filterMap_cons, ht0]
          exact ihr.1
        · intro tid hmem
          simp only [List.filterMap_cons, ht0] at hmem
          rcases ihr.2 tid hmem with hri | hri
          · refine Or.inl ?_
            simp only [List.filterMap_cons, ht0]
            exact hri
          · exact Or.inr hri

/-! ## C1 and C10 — tool-pair repair invariant and idempotence -/

theorem repair_eq (messages : List Message) :
    repairToolPairing messages =
      (synthPass (dropPass (assistantCallIds messages) messages []).1
        (dropPass (assistantCallIds messages) messages []).2).1 := rfl

theorem repair_kept_ids (messages : List Message) :
    ∀ m ∈ repairToolPairing messages, ∀ tid, truthyToolId m = some tid →
      tid ∈ assistantCallIds messages := by
  intro m hm tid htid
  rw [repair_eq] at hm
  rcases synthPass_msgs _ _ m hm with hp | ⟨tid', he, hmem⟩
  · exact dropPass_kept _ _ _ m tid hp htid
  · rw [dropPass_calls] at hmem
    rw [he] at htid
    have := (truthy_dest _ tid htid).2.1
    rw [syntheticResult_id] at this
    cases this
    exact hmem

theorem repair_calls (messages : List Message) :
    assistantCallIds (repairToolPairing messages) = assistantCallIds messages := by
  rw [repair_eq, synthPass_calls, dropPass_calls]

theorem repair_nodup (messages : List Message) :
    ((repairToolPairing messages).filterMap truthyToolId).Nodup := by
  rw [repair_eq]
  refine (synthPass_nodup _ _ ?_ (dropPass_nodup _ messages []).1).1
  intro tid htid
  rcases List.mem_filterMap.mp htid with ⟨m, hm, hmt⟩
  rw [dropPass_seen]
  exact Or.inr ⟨m, hm, hmt⟩

theorem repair_covers (messages : List Message) :
    ∀ tid ∈ assistantCallIds messages,
      ∃ m ∈ repairToolPairing messages, m.role = Role.tool ∧ m.toolCallId = some tid := by
  intro tid htid
  rw [repair_eq]
  by_cases hs : tid ∈ (dropPass (assistantCallIds messages) messages []).2
  · rcases (dropPass_seen _ messages [] tid).mp hs with h | ⟨m, hm, hmt⟩
    · cases h
    · refine ⟨m, synthPass_sub _ _ m hm, ?_⟩
      have hd := truthy_dest m tid hmt
      exact ⟨hd.1, hd.2.1⟩
  · have hmem : tid ∈ (synthPass (dropPass (assistantCallIds messages) messages []).1
        (dropPass (assistantCallIds messages) messages []).2).2 := by
      rw [synthPass_seen]
      refine Or.inr ?_
      rw [dropPass_calls]
      exact htid
    rcases synthPass_new _ _ tid hmem hs with ⟨m, hm, he⟩
    refine ⟨m, hm, ?_⟩
    rw [he]
    exact ⟨syntheticResult_role tid, syntheticResult_id tid⟩

theorem repair_msgs (messages : List Message) :
    ∀ m ∈ repairToolPairing messages,
      m ∈ messages ∨ ∃ tid, m = syntheticResult tid ∧ tid ∈ assistantCallIds messages := by
  intro m hm
  rw [repair_eq] at hm
  rcases synthPass_msgs _ _ m hm with hp | ⟨tid, he, hmem⟩
  · exact Or.inl (dropPass_sub _ messages [] m hp)
  · rw [dropPass_calls] at hmem
    exact Or.inr ⟨tid, he, hmem⟩

/-- C1 counterexample: on the context `[tool "a", assistant calling "a"]` the
repair keeps the tool result that PRECEDES its assistant message (the
`toolCallIds` set of memory.ts:141 is collected over all assistant messages,
not only earlier ones), so the output violates the claim's invariant: the
tool message's id matches no earlier assistant tool call, and the assistant
tool call has no later matching tool message. -/
theorem claim_C1_counterexample :
    repairToolPairing c1CeCtx = c1CeCtx ∧ ¬ claimedPairingInvariant (repairToolPairing c1CeCtx) := by
  constructor
  · decide
  · rw [show repairToolPairing c1CeCtx = c1CeCtx by decide]
    intro h
    have := h.1
    revert this
    decide

/-- C1 (amended): for every message list, the output of `repairToolPairing`
satisfies: every tool message with a non-empty `toolCallId` carries the id of
a tool call on SOME assistant message (not necessarily an earlier one); no
non-empty `toolCallId` appears on more than one tool message; every assistant
tool call id has a matching tool message somewhere in the list (synthetic
`"[Result cleared during context compaction]"` messages are inserted for the
calls that lacked one); orphaned and duplicate tool results are dropped and
every added message is such a synthetic result; assistant messages and their
call ids are preserved. -/
theorem claim_C1_amended (messages : List Message) :
    (∀ m ∈ repairToolPairing messages, ∀ tid, truthyToolId m = some tid →
      tid ∈ assistantCallIds (repairToolPairing messages))
    ∧ ((repairToolPairing messages).filterMap truthyToolId).Nodup
    ∧ (∀ tid ∈ assistantCallIds messages,
      ∃ m ∈ repairToolPairing messages, m.role = Role.tool ∧ m.toolCallId = some tid)
    ∧ assistantCallIds (repairToolPairing messages) = assistantCallIds messages
    ∧ (∀ m ∈ repairToolPairing messages,
      m ∈ messages ∨ ∃ tid, m = syntheticResult tid ∧ tid ∈ assistantCallIds messages) := by
  refine ⟨?_, repair_nodup messages, repair_covers messages, repair_calls messages,
    repair_msgs messages⟩
  intro m hm tid htid
  rw [repair_calls]
  exact repair_kept_ids messages m hm tid htid

/-- Witness for C1 (amended) on a concrete context with an orphaned result, a
duplicate result, and an unanswered tool call. -/
theorem claim_C1_witness :
    ("b" ∈ assistantCallIds c1Ctx
      ∧ ∃ m ∈ repairToolPairing c1Ctx, m.role = Role.tool ∧ m.toolCallId = some "b")
    ∧ ((repairToolPairing c1Ctx).filterMap truthyToolId).Nodup
    ∧ (toolMsg "a" "res-a" ∈ repairToolPairing c1Ctx
      ∧ truthyToolId (toolMsg "a" "res-a") = some "a"
      ∧ "a" ∈ assistantCallIds (repairToolPairing c1Ctx)) := by
  refine ⟨⟨by decide, (claim_C1_amended c1Ctx).2.2.1 "b" (by decide)⟩,
    (claim_C1_amended c1Ctx).2.1, ⟨by decide, by decide, ?_⟩⟩
  exact (claim_C1_amended c1Ctx).1 (toolMsg "a" "res-a") (by decide) "a" (by decide)

/-- C10 counterexample: `repairToolPairing` is not idempotent on a context
whose assistant tool call has the empty string as id — the synthetic result
inserted for it has a falsy `toolCallId`, is not registered as a tool result
on the next run, and a second synthetic result is inserted. -/
theorem claim_C10_counterexample :
    repairToolPairing (repairToolPairing c10Ctx) ≠ repairToolPairing c10Ctx := by
  decide

/-- C10 (amended): `repairToolPairing` is idempotent on every message list in
which no assistant tool call id is the empty string. -/
theorem claim_C10_amended (messages : List Message)
    (hne : "" ∉ assistantCallIds messages) :
    repairToolPairing (repairToolPairing messages) = repairToolPairing messages := by
  have hkept : ∀ tid ∈ (repairToolPairing messages).filterMap truthyToolId,
      tid ∈ assistantCallIds (repairToolPairing messages) ∧ tid ∉ ([] : List String) := by
    intro tid htid
    rcases List.mem_filterMap.mp htid with ⟨m, hm, hmt⟩
    refine ⟨?_, by simp⟩
    rw [repair_calls]
    exact repair_kept_ids messages m hm tid hmt
  have hp1 : (dropPass (assistantCallIds (repairToolPairing messages))
      (repairToolPairing messages) []).1 = repairToolPairing messages :=
    dropPass_id _ _ [] (repair_nodup messages) hkept
  rw [repair_eq (repairToolPairing messages), hp1]
  refine synthPass_id _ _ ?_
  intro tid htid
  rw [repair_calls] at htid
  rw [dropPass_seen, hp1]
  rcases repair_covers messages tid htid with ⟨m, hm, hrole, hid⟩
  have htne : tid ≠ "" := fun he => hne (he ▸ htid)
  exact Or.inr ⟨m, hm, truthy_intro m tid hrole hid htne⟩

/-- Witness for C10 (amended) at a concrete context. -/
theorem claim_C10_witness :
    "" ∉ assistantCallIds c1Ctx
    ∧ repairToolPairing (repairToolPairing c1Ctx) = repairToolPairing c1Ctx :=
  ⟨by decide, claim_C10_amended c1Ctx (by decide)⟩

end Protocells
